import Mathlib

/-!
# Verification of the soulcaster clustering core

Shallow embedding of the clustering core of the `soulcaster` repository:

* `backend/clustering.py` — text preparation (`prepare_issue_texts`), the
  similarity primitive (`cosine`), the pure batch strategies
  (`cluster_centroid`, `cluster_vector_like`) and the orchestration helper
  (`cluster_issues`).
* `backend/clustering_runner_v2.py` — the incremental
  `VectorDBClusteringEngine`: `cosine_similarity`, the Phase-1 retry loop of
  `_query_existing_items`, the Phase-2 resolution `_cluster_in_memory_with_audit`,
  and the Phase-3 `_prepare_upserts` / `_batch_upsert`.

Modelling conventions:

* Python floats are embedded as exact numbers: vector components are `ℚ`;
  quantities built with a square root (`np.linalg.norm`) live in `ℝ`.
* Python strings are embedded as `List Char` (a Python `str` is a sequence of
  code points; slicing and `strip` are per-code-point).  Identifiers that are
  only compared for equality stay `String`.
* Python dicts keyed by distinct keys are embedded as association lists.
* `uuid4()` is embedded as a fresh-name supply: the k-th id minted during a
  batch is `ClusterId.fresh k`, distinct from every pre-existing id
  (`ClusterId.ext s`) and from every other minted id.
-/

namespace Soulcaster

/-! ## Vectors and similarity primitives -/

/-- Embedding vectors (`np.ndarray` rows) as rational component lists. -/
abbrev Vec := List ℚ

/-- Componentwise `np.dot` of two vectors. -/
def dot (a b : Vec) : ℚ := (List.zipWith (· * ·) a b).sum

/-- Source `clustering.cosine` (clustering.py line 108): the raw dot product,
documented in the source as "Cosine similarity for L2-normalized vectors". -/
def cosine (a b : Vec) : ℚ := dot a b

/-- Componentwise vector addition. -/
def vadd (a b : Vec) : Vec := List.zipWith (· + ·) a b

/-- Scalar multiplication of a vector. -/
def smul (c : ℚ) (a : Vec) : Vec := a.map (fun x => c * x)

/-- The all-zero vector of dimension `d`. -/
def zeroVec (d : Nat) : Vec := List.replicate d 0

/-- Sum of a list of vectors of dimension `d`. -/
def vsum (d : Nat) (vs : List Vec) : Vec := vs.foldr vadd (zeroVec d)

/-- Arithmetic mean of a list of vectors of dimension `d`. -/
def vmean (d : Nat) (vs : List Vec) : Vec :=
  smul (1 / (vs.length : ℚ)) (vsum d vs)

/-- Euclidean norm `np.linalg.norm` of a vector. -/
noncomputable def vnorm (a : Vec) : ℝ := Real.sqrt ((dot a a : ℚ) : ℝ)

/-- Source `cosine_similarity` (clustering_runner_v2.py lines 64–71): the safe
cosine, returning `0` when either operand has zero norm. -/
noncomputable def cosine_similarity (a b : Vec) : ℝ :=
  if vnorm a = 0 ∨ vnorm b = 0 then 0
  else ((dot a b : ℚ) : ℝ) / (vnorm a * vnorm b)

/-! ## Text preparation (`prepare_issue_texts`, clustering.py lines 38–59) -/

/-- Python text: a sequence of code points. -/
abbrev PyStr := List Char

/-- An issue/feedback dictionary, restricted to the keys `prepare_issue_texts`
reads; an absent key (`dict.get` returning `None`) is `none`. -/
structure Issue where
  title : Option PyStr
  body : Option PyStr
  raw_text : Option PyStr

/-- Python `x or y` for `x` an optional string: `y` when `x` is `None` or the
empty (falsy) string, else `x`. -/
def pyOr (x : Option PyStr) (y : PyStr) : PyStr :=
  match x with
  | none => y
  | some s => if s = [] then y else s

/-- Python `str.strip()`: drop leading and trailing whitespace. -/
def pyStrip (s : PyStr) : PyStr :=
  ((s.dropWhile Char.isWhitespace).reverse.dropWhile Char.isWhitespace).reverse

/-- Python slice `s[:n]` (also for negative `n`, which counts from the end). -/
def pySliceTo (s : PyStr) (n : ℤ) : PyStr :=
  if 0 ≤ n then s.take n.toNat else s.take (s.length - (-n).toNat)

/-- The title extracted from an issue: `(issue.get("title") or "").strip()`. -/
def extractedTitle (issue : Issue) : PyStr := pyStrip (pyOr issue.title [])

/-- The raw body extracted from an issue, before truncation:
`(issue.get("body") or issue.get("raw_text") or "").strip()`. -/
def extractedRawBody (issue : Issue) : PyStr :=
  pyStrip (pyOr issue.body (pyOr issue.raw_text []))

/-- The body after the truncation guard
`if truncate_body_chars and len(body) > truncate_body_chars: body = body[:truncate_body_chars]`
(`truncate_body_chars` is falsy exactly when it is `0`). -/
def truncatedBody (truncate_body_chars : ℤ) (issue : Issue) : PyStr :=
  let body := extractedRawBody issue
  if truncate_body_chars ≠ 0 ∧ (body.length : ℤ) > truncate_body_chars then
    pySliceTo body truncate_body_chars
  else body

/-- The text built for a single issue inside the `prepare_issue_texts` loop. -/
def prepareIssueText (truncate_body_chars : ℤ) (issue : Issue) : PyStr :=
  let title := extractedTitle issue
  let body := truncatedBody truncate_body_chars issue
  if title ≠ [] ∧ body ≠ [] then title ++ ('\n' :: '\n' :: body)
  else if title ≠ [] then title
  else body

/-- Source `prepare_issue_texts` (clustering.py lines 38–59). -/
def prepare_issue_texts (issues : List Issue) (truncate_body_chars : ℤ) :
    List PyStr :=
  issues.map (prepareIssueText truncate_body_chars)

/-! ## Batch clustering strategies (clustering.py lines 136–184) -/

/-- Model of `np.argmax`: index of the first occurrence of the maximum value
(`0` on the empty list; only applied to nonempty lists in the source). -/
def argmaxQ (l : List ℚ) : Nat :=
  match l.maximum with
  | none => 0
  | some m => l.indexOf m

/-- One iteration of the `cluster_centroid` loop (clustering.py lines 147–161):
state is the current `(centroids, labels)` pair. -/
def centroidStep (τ : ℚ) (st : List Vec × List Nat) (emb : Vec) :
    List Vec × List Nat :=
  let centroids := st.1
  let labels := st.2
  if centroids = [] then ([emb], labels ++ [0])
  else
    let sims := centroids.map (fun c => cosine emb c)
    let best := argmaxQ sims
    if τ ≤ sims.getD best 0 then
      let k := best
      let count_k := labels.count k
      let c' := smul (1 / ((count_k : ℚ) + 1))
        (vadd (smul (count_k : ℚ) (centroids.getD k [])) emb)
      (centroids.set k c', labels ++ [k])
    else
      (centroids ++ [emb], labels ++ [centroids.length])

/-- The `(centroids, labels)` state of `cluster_centroid` after folding over the
whole embedding list. -/
def centroidState (τ : ℚ) (embs : List Vec) : List Vec × List Nat :=
  embs.foldl (centroidStep τ) ([], [])

/-- Source `cluster_centroid` (clustering.py lines 136–162). -/
def cluster_centroid (τ : ℚ) (embs : List Vec) : List Nat :=
  (centroidState τ embs).2

/-- One iteration of the `cluster_vector_like` loop (clustering.py lines
176–183): state is `(labels, next_cluster)`; `i` is the batch index. -/
def vectorLikeStep (τ : ℚ) (embs : List Vec) (st : List Nat × Nat) (i : Nat) :
    List Nat × Nat :=
  let labels := st.1
  let next_cluster := st.2
  let similars := (List.range i).filter
    (fun j => τ ≤ cosine (embs.getD i []) (embs.getD j []))
  match similars with
  | [] => (labels ++ [next_cluster], next_cluster + 1)
  | j :: _ => (labels ++ [labels.getD j 0], next_cluster)

/-- The `(labels, next_cluster)` state of `cluster_vector_like` after the first
`n` items. -/
def vectorLikeState (τ : ℚ) (embs : List Vec) (n : Nat) : List Nat × Nat :=
  (List.range n).foldl (vectorLikeStep τ embs) ([], 0)

/-- Source `cluster_vector_like` (clustering.py lines 165–184). -/
def cluster_vector_like (τ : ℚ) (embs : List Vec) : List Nat :=
  (vectorLikeState τ embs embs.length).1

/-! ## Orchestration (`cluster_issues`, clustering.py lines 190–233) -/

/-- The index group of one label:
`[i for i, lbl in enumerate(labels) if lbl == label]`. -/
def idxsOf (labels : List ℤ) (lbl : ℤ) : List Nat :=
  (List.range labels.length).filter (fun i => labels.getD i 0 = lbl)

/-- Model of `np.unique`: the distinct labels, sorted ascending. -/
def uniqueSorted (labels : List ℤ) : List ℤ :=
  labels.dedup.mergeSort (fun a b => a ≤ b)

/-- The bucketing loop of `cluster_issues` (clustering.py lines 219–226):
groups of size `≥ min_cluster_size` are appended to `clusters` in label order,
the rest are extended onto `singletons` in label order. -/
def bucketGroups (min_cluster_size : ℤ) :
    List (List Nat) → List (List Nat) × List Nat
  | [] => ([], [])
  | g :: rest =>
    let acc := bucketGroups min_cluster_size rest
    if min_cluster_size ≤ (g.length : ℤ) then (g :: acc.1, acc.2)
    else (acc.1, g ++ acc.2)

/-- The clusters/singletons partition computed by `cluster_issues` from the
labels a strategy returned (clustering.py lines 219–226); quantifying over an
arbitrary `labels` list covers every strategy and threshold. -/
def cluster_issues_buckets (labels : List ℤ) (min_cluster_size : ℤ) :
    List (List Nat) × List Nat :=
  bucketGroups min_cluster_size ((uniqueSorted labels).map (idxsOf labels))

/-! ## Incremental engine data model (clustering_runner_v2.py lines 30–95) -/

/-- Cluster identifiers: `ext s` is an id already stored in the vector index,
`fresh k` is the k-th id minted by `str(uuid4())` during the current batch
(modelled as a fresh-name supply, see the header). -/
inductive ClusterId where
  | ext (s : String)
  | fresh (k : Nat)
deriving DecidableEq, Repr, Inhabited

/-- Metadata carried by a vector-index match (`SimilarFeedback.metadata`);
`cluster_id` is `None` or a string, and the Python truthiness test treats the
empty string like `None`. -/
structure MatchMeta where
  cluster_id : Option String
  title : String
deriving DecidableEq, Repr

/-- A `SimilarFeedback` object returned by `vector_store.find_similar`:
fields as used by the engine (`id`, `score`, `metadata`). -/
structure SimilarFeedback where
  id : String
  score : ℝ
  metadata : Option MatchMeta

/-- A feedback item as read by the engine: `item.get("id")`, `item.get("title", "")`,
`item.get("source", "")`, `item.get("created_at")`. -/
structure Item where
  id : String
  title : String
  source : String
  created_at : Option String
deriving DecidableEq, Repr, Inhabited

/-- The `decision_type` strings of `ClusteringDecision`. -/
inductive DecisionType where
  | created_new
  | joined_existing
  | joined_batch
deriving DecidableEq, Repr, Inhabited

/-- A `ClusteringDecision` audit entry (clustering_runner_v2.py lines 30–49),
restricted to the decision-relevant fields; the constant `confidence = 1.0`,
the wall-clock `timestamp` and the free-form `details` map are omitted. -/
structure ClusteringDecision where
  item_id : String
  cluster_id : ClusterId
  decision_type : DecisionType
  similarity_score : Option ℝ
  matched_item_id : Option String
deriving Inhabited

/-- The mutable state of `_cluster_in_memory_with_audit`:
`item_to_cluster`, `audit_trail` (kept in insertion order) and
`cluster_members` (insertion-ordered dict of member lists), plus the
fresh-uuid supply counter. -/
structure EngineState where
  item_to_cluster : List (String × ClusterId)
  audit : List (String × ClusteringDecision)
  members : List (ClusterId × List String)
  freshCount : Nat

/-- The engine state before any item is processed. -/
def initState : EngineState := ⟨[], [], [], 0⟩

/-- The `cluster_id` a match carries, when its metadata is present:
`s.metadata and s.metadata.cluster_id`. -/
def matchClusterId (s : SimilarFeedback) : Option String :=
  s.metadata.bind (fun m => m.cluster_id)

/-- Python truthiness of `s.metadata and s.metadata.cluster_id`: the match
carries a usable cluster id iff it is present and nonempty. -/
def carriesCluster (s : SimilarFeedback) : Bool :=
  (matchClusterId s).getD "" ≠ ""

/-- The filtered match list `clustered_existing` of Check 1
(clustering_runner_v2.py lines 249–253): order as returned by the index. -/
def clusteredExisting (ms : List SimilarFeedback) : List SimilarFeedback :=
  ms.filter carriesCluster

/-- Append `x` to the member list of `cid`, creating the (insertion-ordered)
dict entry when absent — the
`if cluster_id not in cluster_members: ...; append` idiom. -/
def appendMember (m : List (ClusterId × List String)) (cid : ClusterId)
    (x : String) : List (ClusterId × List String) :=
  match m with
  | [] => [(cid, [x])]
  | (c, xs) :: rest =>
    if c = cid then (c, xs ++ [x]) :: rest
    else (c, xs) :: appendMember rest cid x

/-- Check 2 of Phase 2 (clustering_runner_v2.py lines 286–323): scan prior
batch indices `j` in order, skip unassigned ids, and return the first `j`
whose cosine similarity reaches the threshold, together with its id, its
cluster and the similarity. -/
noncomputable def firstBatchJoin (τ : ℝ) (items : List Item) (embs : List Vec)
    (assigned : List (String × ClusterId)) (emb : Vec) :
    List Nat → Option (Nat × String × ClusterId × ℝ)
  | [] => none
  | j :: rest =>
    let prev_id := (items.getD j default).id
    match assigned.lookup prev_id with
    | none => firstBatchJoin τ items embs assigned emb rest
    | some cid =>
      let s := cosine_similarity emb (embs.getD j [])
      if τ ≤ s then some (j, prev_id, cid, s)
      else firstBatchJoin τ items embs assigned emb rest

/-- Processing of one batch item inside `_cluster_in_memory_with_audit`
(clustering_runner_v2.py lines 244–345). -/
noncomputable def phase2Step (τ : ℝ) (items : List Item) (embs : List Vec)
    (queryMatches : String → List SimilarFeedback) (st : EngineState) (i : Nat) :
    EngineState :=
  let item_id := (items.getD i default).id
  let embedding := embs.getD i []
  match clusteredExisting (queryMatches item_id) with
  | target :: _ =>
    let cid := ClusterId.ext ((matchClusterId target).getD "")
    { item_to_cluster := (item_id, cid) :: st.item_to_cluster
      audit := st.audit ++ [(item_id,
        { item_id := item_id, cluster_id := cid
          decision_type := .joined_existing
          similarity_score := some target.score
          matched_item_id := some target.id })]
      members := appendMember st.members cid item_id
      freshCount := st.freshCount }
  | [] =>
    match firstBatchJoin τ items embs st.item_to_cluster embedding
        (List.range i) with
    | some (_, prev_id, cid, s) =>
      { item_to_cluster := (item_id, cid) :: st.item_to_cluster
        audit := st.audit ++ [(item_id,
          { item_id := item_id, cluster_id := cid
            decision_type := .joined_batch
            similarity_score := some s
            matched_item_id := some prev_id })]
        members := appendMember st.members cid item_id
        freshCount := st.freshCount }
    | none =>
      let cid := ClusterId.fresh st.freshCount
      { item_to_cluster := (item_id, cid) :: st.item_to_cluster
        audit := st.audit ++ [(item_id,
          { item_id := item_id, cluster_id := cid
            decision_type := .created_new
            similarity_score := none
            matched_item_id := none })]
        members := appendMember st.members cid item_id
        freshCount := st.freshCount + 1 }

/-- The engine state after Phase 2 has processed the first `n` batch items. -/
noncomputable def phase2State (τ : ℝ) (items : List Item) (embs : List Vec)
    (queryMatches : String → List SimilarFeedback) (n : Nat) : EngineState :=
  (List.range n).foldl (phase2Step τ items embs queryMatches) initState

/-- Source `_cluster_in_memory_with_audit` (clustering_runner_v2.py lines
222–350): the final clusters list and audit trail. -/
noncomputable def cluster_in_memory_with_audit (τ : ℝ) (items : List Item)
    (embs : List Vec) (queryMatches : String → List SimilarFeedback) :
    List (ClusterId × List String) × List (String × ClusteringDecision) :=
  let st := phase2State τ items embs queryMatches items.length
  (st.members, st.audit)

/-! ## Phase 1: query with retries (`_query_existing_items`,
clustering_runner_v2.py lines 173–220) -/

/-- Errors raised by the vector store, carried as opaque messages. -/
abbrev Err := String

/-- The retry loop `for attempt in range(R)` of `_query_existing_items`
(clustering_runner_v2.py lines 196–216).  `f attempt` is the outcome of the
`find_similar` call on that attempt; the loop breaks on the first success.
The result records the outcome, the number of calls made, and the list of
sleeps performed (each of the fixed `ec_retry_delay`), in order.  When the
attempt list is exhausted without a call having run (`R = 0`) the initial
`similar = []` is returned. -/
def retryFold (f : Nat → Except Err (List SimilarFeedback)) (delay : ℚ)
    (R : ℤ) : List Nat → Nat → List ℚ →
    Except Err (List SimilarFeedback) × Nat × List ℚ
  | [], calls, slept => (.ok [], calls, slept)
  | attempt :: rest, calls, slept =>
    match f attempt with
    | .ok v => (.ok v, calls + 1, slept)
    | .error e =>
      if (attempt : ℤ) < R - 1 then
        retryFold f delay R rest (calls + 1) (slept ++ [delay])
      else (.error e, calls + 1, slept)

/-- The per-item query of Phase 1: attempts `0..R-1` with fixed backoff
`delay`, returning the outcome together with the call count and sleeps. -/
def query_with_retry (f : Nat → Except Err (List SimilarFeedback)) (delay : ℚ)
    (R : Nat) : Except Err (List SimilarFeedback) × Nat × List ℚ :=
  retryFold f delay (R : ℤ) (List.range R) 0 []

/-- Source `_query_existing_items` (clustering_runner_v2.py lines 173–220):
query every item in order, building the `existing_matches` dict; the first
per-item failure that survives its retries propagates and aborts the whole
loop. -/
def query_existing_items (R : Nat) (delay : ℚ)
    (finder : String → Nat → Except Err (List SimilarFeedback)) :
    List Item → Except Err (List (String × List SimilarFeedback))
  | [] => .ok []
  | item :: rest =>
    match (query_with_retry (finder item.id) delay R).1 with
    | .error e => .error e
    | .ok similar =>
      match query_existing_items R delay finder rest with
      | .error e => .error e
      | .ok acc => .ok ((item.id, similar) :: acc)

/-! ## Phase 3: upserts (`_prepare_upserts` / `_batch_upsert`,
clustering_runner_v2.py lines 352–390) -/

/-- One entry of the upsert payload built by `_prepare_upserts`: the item's
embedding plus the metadata dict `{title, source, cluster_id, created_at}`. -/
structure Upsert where
  id : String
  embedding : Vec
  title : String
  source : String
  cluster_id : ClusterId
  created_at : Option String
deriving DecidableEq, Repr

/-- Source `_prepare_upserts` (clustering_runner_v2.py lines 352–379).  The
reverse map `{id: c for c, ids in clusters for id in ids}` is modelled by a
last-wins lookup; `item_to_cluster[item_id]` raises `KeyError` for an id
absent from every cluster, modelled by the `.ext ""` default (unreachable for
clusters produced by Phase 2, which cover every item id). -/
def prepare_upserts (items : List Item) (embs : List Vec)
    (clusters : List (ClusterId × List String)) : List Upsert :=
  let item_to_cluster :=
    (clusters.flatMap (fun p => p.2.map (fun id => (id, p.1)))).reverse
  (List.range items.length).map (fun i =>
    let item := items.getD i default
    { id := item.id
      embedding := embs.getD i []
      title := item.title
      source := item.source
      cluster_id := (item_to_cluster.lookup item.id).getD (ClusterId.ext "")
      created_at := item.created_at })

/-- Source `_batch_upsert` (clustering_runner_v2.py lines 381–389): the writes
this function issues to the vector store.  The body only logs — the call
`self.vector_store.upsert_feedback_batch(upserts, project_id=project_id)` is
commented out — so no write is issued for any payload. -/
def batch_upsert_writes (_upserts : List Upsert) : List Upsert := []

/-- Source `cluster_batch` (clustering_runner_v2.py lines 97–171), reduced to
its data flow: Phase 1 (a failure propagates, aborting the batch), Phase 2,
then Phase 3; the result carries the Phase-2 state together with the writes
that actually reached the vector index. -/
noncomputable def cluster_batch (τ : ℝ) (R : Nat) (delay : ℚ)
    (items : List Item) (embs : List Vec)
    (finder : String → Nat → Except Err (List SimilarFeedback)) :
    Except Err (EngineState × List Upsert) :=
  match query_existing_items R delay finder items with
  | .error e => .error e
  | .ok assoc =>
    let st := phase2State τ items embs
      (fun id => (assoc.lookup id).getD []) items.length
    let upserts := prepare_upserts items embs st.members
    .ok (st, batch_upsert_writes upserts)

/-! ## Basic facts about the similarity primitives -/

/-- The spec-side per-item rule for the text preparer, written from the
specification's words (§4.1): compose title, blank line and (truncated) body;
if the title is absent return the body alone; if both are absent return the
empty string.  Kept separate from `prepareIssueText` for the refinement
comparison of claim C9. -/
def specPreparedText (truncate_body_chars : ℤ) (issue : Issue) : PyStr :=
  let title := extractedTitle issue
  let body := truncatedBody truncate_body_chars issue
  if title = [] then body else title ++ ('\n' :: '\n' :: body)

lemma dot_cons (x y : ℚ) (xs ys : Vec) :
    dot (x :: xs) (y :: ys) = x * y + dot xs ys := by
  simp [dot]

lemma dot_self_nonneg (a : Vec) : 0 ≤ dot a a := by
  induction a with
  | nil => simp [dot]
  | cons x xs ih =>
    rw [dot_cons]
    exact add_nonneg (mul_self_nonneg x) ih

lemma vnorm_eq_zero_iff (a : Vec) : vnorm a = 0 ↔ dot a a = 0 := by
  unfold vnorm
  rw [Real.sqrt_eq_zero']
  constructor
  · intro h
    have h' : dot a a ≤ 0 := by exact_mod_cast h
    exact le_antisymm h' (dot_self_nonneg a)
  · intro h
    simp [h]

lemma dot_zeroVec (n : Nat) : dot (zeroVec n) (zeroVec n) = 0 := by
  induction n with
  | zero => simp [dot, zeroVec]
  | succ k ih =>
    simp only [zeroVec, List.replicate_succ]
    rw [show dot (0 :: List.replicate k (0:ℚ)) (0 :: List.replicate k 0) =
      0 * 0 + dot (zeroVec k) (zeroVec k) from dot_cons 0 0 _ _]
    simp [ih]

lemma vnorm_zeroVec (n : Nat) : vnorm (zeroVec n) = 0 := by
  rw [vnorm_eq_zero_iff]
  exact dot_zeroVec n

/-! ## Claim C2 — the similarity primitive -/

/-- Claim C2, counterexample: the claim asserts `cosine(a,a) == 1.0` for every
nonzero vector `a`, normalized or not; but `clustering.cosine` is the bare dot
product, so for the nonzero vector `[2]` it returns `4`, not `1`. -/
theorem C2_cosine_counterexample :
    ([(2 : ℚ)] : Vec) ≠ zeroVec 1 ∧ cosine [(2 : ℚ)] [(2 : ℚ)] = 4 ∧
      ((4 : ℚ) ≠ 1) := by
  refine ⟨by decide, ?_, by norm_num⟩
  norm_num [cosine, dot]

/-- Claim C2, amended: the engine primitive `cosine_similarity`
(clustering_runner_v2.py) implements the safe form: it returns
`dot(a,b)/(|a|·|b|)`, returns `0` whenever either operand's norm is `0`
(in particular against a zero vector), and satisfies
`cosine_similarity(a,a) = 1` for every vector of nonzero norm.  The other
primitive, `clustering.cosine`, is a bare dot product and coincides with the
safe form only on L2-normalized inputs. -/
theorem C2_cosine_similarity_safe (a b : Vec) (n : Nat) :
    (vnorm a ≠ 0 → vnorm b ≠ 0 →
      cosine_similarity a b = ((dot a b : ℚ) : ℝ) / (vnorm a * vnorm b)) ∧
    (vnorm a = 0 ∨ vnorm b = 0 → cosine_similarity a b = 0) ∧
    (dot a a ≠ 0 → cosine_similarity a a = 1) ∧
    cosine_similarity (zeroVec n) b = 0 ∧
    cosine_similarity a (zeroVec n) = 0 := by
  refine ⟨?_, ?_, ?_, ?_, ?_⟩
  · intro ha hb
    unfold cosine_similarity
    rw [if_neg]
    push_neg
    exact ⟨ha, hb⟩
  · intro h
    unfold cosine_similarity
    rw [if_pos h]
  · intro h
    have hnz : vnorm a ≠ 0 := fun hz => h ((vnorm_eq_zero_iff a).mp hz)
    unfold cosine_similarity
    rw [if_neg (by push_neg; exact ⟨hnz, hnz⟩)]
    have hnn : (0 : ℝ) ≤ ((dot a a : ℚ) : ℝ) := by
      exact_mod_cast dot_self_nonneg a
    rw [show vnorm a * vnorm a = ((dot a a : ℚ) : ℝ) from Real.mul_self_sqrt hnn]
    rw [div_self (by exact_mod_cast h)]
  · unfold cosine_similarity
    rw [if_pos (Or.inl (vnorm_zeroVec n))]
  · unfold cosine_similarity
    rw [if_pos (Or.inr (vnorm_zeroVec n))]

/-- Witness for C2's amended theorem at `a = b = [1]`, `n = 1`. -/
theorem C2_cosine_similarity_safe_witness :
    dot [(1 : ℚ)] [(1 : ℚ)] ≠ 0 ∧ cosine_similarity [(1 : ℚ)] [(1 : ℚ)] = 1 := by
  have h : dot [(1 : ℚ)] [(1 : ℚ)] ≠ 0 := by norm_num [dot]
  exact ⟨h, (C2_cosine_similarity_safe [(1 : ℚ)] [(1 : ℚ)] 1).2.2.1 h⟩

/-! ## Claims C9 and C10 — the text preparer -/

/-- Claim C9, counterexample: for an item with a title but no body and no
raw_text, the claim's rule (`title + blank line + body`, with exceptions only
for an absent title) yields the title followed by a blank line, while the code
returns the title alone. -/
theorem C9_counterexample :
    prepareIssueText 1500 ⟨some ['T'], none, none⟩ = ['T'] ∧
    specPreparedText 1500 ⟨some ['T'], none, none⟩ = ['T', '\n', '\n'] ∧
    (['T'] : PyStr) ≠ ['T', '\n', '\n'] := by
  refine ⟨?_, ?_, by decide⟩ <;> decide

/-- Claim C9, amended: `prepare_issue_texts` returns exactly one string per
input item, in order, and each output follows the claim's rule amended with
one extra case: when the title is present but the (fallback, truncated) body
is empty, the title alone is returned.  Title absent still yields the body
alone, both absent yield the empty string, and the output is total (never
null). -/
theorem C9_prepare_issue_texts (issues : List Issue) (limit : ℤ) :
    (prepare_issue_texts issues limit).length = issues.length ∧
    ∀ i, i < issues.length →
      (prepare_issue_texts issues limit).getD i [] =
        (let issue := issues.getD i ⟨none, none, none⟩
         let t := extractedTitle issue
         let b := truncatedBody limit issue
         if t = [] then b
         else if b = [] then t
         else t ++ ('\n' :: '\n' :: b)) := by
  constructor
  · simp [prepare_issue_texts]
  · intro i hi
    have hget : (prepare_issue_texts issues limit).getD i [] =
        prepareIssueText limit (issues.getD i ⟨none, none, none⟩) := by
      unfold prepare_issue_texts
      rw [List.getD_eq_getElem?_getD, List.getElem?_map]
      rw [List.getElem?_eq_getElem hi]
      simp [List.getD_eq_getElem?_getD, List.getElem?_eq_getElem hi]
    rw [hget]
    show prepareIssueText limit (issues.getD i ⟨none, none, none⟩) = _
    generalize issues.getD i ⟨none, none, none⟩ = issue
    unfold prepareIssueText
    by_cases h1 : extractedTitle issue = [] <;>
      by_cases h2 : truncatedBody limit issue = [] <;>
      simp [h1, h2]

/-- Witness for C9's amended theorem at a one-item batch with title and body
present. -/
theorem C9_prepare_issue_texts_witness :
    (prepare_issue_texts [⟨some ['T'], some ['B'], none⟩] 1500).length = 1 ∧
    (prepare_issue_texts [⟨some ['T'], some ['B'], none⟩] 1500).getD 0 [] =
      ['T', '\n', '\n', 'B'] := by
  have h := C9_prepare_issue_texts [⟨some ['T'], some ['B'], none⟩] 1500
  refine ⟨h.1, ?_⟩
  rw [h.2 0 (by decide)]
  decide

/-- Claim C10: a configured limit of `0` disables truncation entirely — the
guard `if truncate_body_chars and ...` treats `0` as falsy, so the extracted
body is passed through at full length, however long it is. -/
theorem C10_zero_disables_truncation (issue : Issue) :
    truncatedBody 0 issue = extractedRawBody issue ∧
    (truncatedBody 0 issue).length = (extractedRawBody issue).length := by
  have h : truncatedBody 0 issue = extractedRawBody issue := by
    unfold truncatedBody
    simp
  exact ⟨h, by rw [h]⟩

/-! ## Claim C3 — Phase 3 never writes to the index -/

/-- Claim C3 (code bug): `_prepare_upserts` does assemble every item's
embedding and metadata `{title, source, cluster_id, created_at}`, but
`_batch_upsert` only logs — the `upsert_feedback_batch` call is commented
out — so for a nonempty batch the nonempty payload results in zero writes
reaching the vector index. -/
theorem C3_upsert_never_reaches_index :
    prepare_upserts [⟨"a", "T", "reddit", some "2024-01-01"⟩] [[(1 : ℚ)]]
        [(ClusterId.fresh 0, ["a"])] =
      [{ id := "a", embedding := [(1 : ℚ)], title := "T", source := "reddit",
         cluster_id := ClusterId.fresh 0, created_at := some "2024-01-01" }] ∧
    (prepare_upserts [⟨"a", "T", "reddit", some "2024-01-01"⟩] [[(1 : ℚ)]]
        [(ClusterId.fresh 0, ["a"])] ≠ []) ∧
    (∀ upserts : List Upsert, batch_upsert_writes upserts = []) := by
  refine ⟨by decide, by decide, fun _ => rfl⟩

/-! ## Claim C5 — `cluster_issues` partitions the batch -/

lemma bucketGroups_clusters (m : ℤ) (gs : List (List Nat)) :
    (bucketGroups m gs).1 = gs.filter (fun g => decide (m ≤ (g.length : ℤ))) := by
  induction gs with
  | nil => rfl
  | cons g rest ih =>
    by_cases h : m ≤ (g.length : ℤ) <;> simp [bucketGroups, h, ih]

lemma bucketGroups_singletons (m : ℤ) (gs : List (List Nat)) :
    (bucketGroups m gs).2 =
      (gs.filter (fun g => !decide (m ≤ (g.length : ℤ)))).flatten := by
  induction gs with
  | nil => rfl
  | cons g rest ih =>
    by_cases h : m ≤ (g.length : ℤ) <;> simp [bucketGroups, h, ih]

lemma bucketGroups_perm (m : ℤ) (gs : List (List Nat)) :
    ((bucketGroups m gs).1.flatten ++ (bucketGroups m gs).2).Perm gs.flatten := by
  induction gs with
  | nil => simp [bucketGroups]
  | cons g rest ih =>
    by_cases h : m ≤ (g.length : ℤ)
    · simp only [bucketGroups, h, if_pos, List.flatten_cons, List.append_assoc]
      exact ih.append_left g
    · simp only [bucketGroups, h, if_neg, not_false_iff, List.flatten_cons]
      have h2 : ((bucketGroups m rest).1.flatten ++ (g ++ (bucketGroups m rest).2)).Perm
          (g ++ ((bucketGroups m rest).1.flatten ++ (bucketGroups m rest).2)) := by
        rw [← List.append_assoc, ← List.append_assoc]
        exact (List.perm_append_comm).append_right _
      exact h2.trans (ih.append_left g)

lemma mem_uniqueSorted {labels : List ℤ} {x : ℤ} :
    x ∈ uniqueSorted labels ↔ x ∈ labels := by
  unfold uniqueSorted
  rw [List.mem_mergeSort, List.mem_dedup]

lemma nodup_uniqueSorted (labels : List ℤ) : (uniqueSorted labels).Nodup := by
  unfold uniqueSorted
  exact (List.mergeSort_perm labels.dedup _).nodup_iff.mpr labels.nodup_dedup

lemma flatten_idxsOf_perm (labels : List ℤ) (L : List ℤ) (hnd : L.Nodup) :
    ((L.map (idxsOf labels)).flatten).Perm
      ((List.range labels.length).filter
        (fun i => decide (labels.getD i 0 ∈ L))) := by
  induction L with
  | nil => simp
  | cons lbl rest ih =>
    obtain ⟨hmem, hrest⟩ := List.nodup_cons.mp hnd
    simp only [List.map_cons, List.flatten_cons]
    have h1 := ih hrest
    have hsplit := List.filter_append_perm
      (fun i => decide (labels.getD i 0 = lbl))
      ((List.range labels.length).filter
        (fun i => decide (labels.getD i 0 ∈ lbl :: rest)))
    rw [List.filter_filter, List.filter_filter] at hsplit
    have he1 : (List.range labels.length).filter
        (fun i => decide (labels.getD i 0 = lbl) &&
          decide (labels.getD i 0 ∈ lbl :: rest)) = idxsOf labels lbl := by
      unfold idxsOf
      apply List.filter_congr
      intro x _
      by_cases h : labels[x]?.getD 0 = lbl <;>
        simp [List.getD_eq_getElem?_getD, h]
    have he2 : (List.range labels.length).filter
        (fun i => !decide (labels.getD i 0 = lbl) &&
          decide (labels.getD i 0 ∈ lbl :: rest)) =
        (List.range labels.length).filter
          (fun i => decide (labels.getD i 0 ∈ rest)) := by
      apply List.filter_congr
      intro x _
      by_cases h : labels[x]?.getD 0 = lbl
      · simp [List.getD_eq_getElem?_getD, h, hmem]
      · simp [List.getD_eq_getElem?_getD, h]
    rw [he1, he2] at hsplit
    exact (h1.append_left (idxsOf labels lbl)).trans hsplit

/-- Helper: a label list produced by the centroid strategy has one label per
embedding. -/
lemma centroidStep_labels_length (τ : ℚ) (st : List Vec × List Nat) (e : Vec) :
    (centroidStep τ st e).2.length = st.2.length + 1 := by
  simp only [centroidStep]
  split
  · simp
  · split <;> simp

lemma centroidState_snd_length (τ : ℚ) (embs : List Vec) :
    (centroidState τ embs).2.length = embs.length := by
  suffices h : ∀ (l : List Vec) (st : List Vec × List Nat),
      (l.foldl (centroidStep τ) st).2.length = st.2.length + l.length by
    simpa using h embs ([], [])
  intro l
  induction l with
  | nil => simp
  | cons e rest ih =>
    intro st
    rw [List.foldl_cons, ih, centroidStep_labels_length]
    simp only [List.length_cons]
    omega

lemma cluster_centroid_length (τ : ℚ) (embs : List Vec) :
    (cluster_centroid τ embs).length = embs.length :=
  centroidState_snd_length τ embs

lemma vectorLikeStep_labels_length (τ : ℚ) (embs : List Vec)
    (st : List Nat × Nat) (i : Nat) :
    (vectorLikeStep τ embs st i).1.length = st.1.length + 1 := by
  unfold vectorLikeStep
  cases h : (List.range i).filter
      (fun j => τ ≤ cosine (embs.getD i []) (embs.getD j [])) <;> simp [h]

lemma vectorLikeState_fst_length (τ : ℚ) (embs : List Vec) (n : Nat) :
    (vectorLikeState τ embs n).1.length = n := by
  suffices h : ∀ (l : List Nat) (st : List Nat × Nat),
      (l.foldl (vectorLikeStep τ embs) st).1.length = st.1.length + l.length by
    simpa using h (List.range n) ([], 0)
  intro l
  induction l with
  | nil => simp
  | cons j rest ih =>
    intro st
    rw [List.foldl_cons, ih, vectorLikeStep_labels_length]
    simp only [List.length_cons]
    omega

lemma cluster_vector_like_length (τ : ℚ) (embs : List Vec) :
    (cluster_vector_like τ embs).length = embs.length :=
  vectorLikeState_fst_length τ embs embs.length

/-- Claim C5: for every label vector a strategy can produce (covering every
method and threshold) and every `min_cluster_size`, `cluster_issues`
partitions the `n` item indices exactly once: the clusters are exactly the
label groups of size `≥ min_cluster_size`, every other index lands among the
singletons, sizes add up to `n`, no index occurs twice, and the in-source
strategies indeed emit one label per item. -/
theorem C5_cluster_issues_partition (labels : List ℤ) (m : ℤ) :
    ((cluster_issues_buckets labels m).1.flatten ++
        (cluster_issues_buckets labels m).2).Perm (List.range labels.length) ∧
    ((cluster_issues_buckets labels m).1.flatten ++
        (cluster_issues_buckets labels m).2).Nodup ∧
    ((cluster_issues_buckets labels m).1.flatten.length +
        (cluster_issues_buckets labels m).2.length = labels.length) ∧
    (cluster_issues_buckets labels m).1 =
      ((uniqueSorted labels).map (idxsOf labels)).filter
        (fun g => decide (m ≤ (g.length : ℤ))) ∧
    (cluster_issues_buckets labels m).2 =
      (((uniqueSorted labels).map (idxsOf labels)).filter
        (fun g => !decide (m ≤ (g.length : ℤ)))).flatten ∧
    (∀ (τ : ℚ) (embs : List Vec),
      (cluster_centroid τ embs).length = embs.length) ∧
    (∀ (τ : ℚ) (embs : List Vec),
      (cluster_vector_like τ embs).length = embs.length) := by
  have hperm : ((cluster_issues_buckets labels m).1.flatten ++
      (cluster_issues_buckets labels m).2).Perm (List.range labels.length) := by
    unfold cluster_issues_buckets
    refine (bucketGroups_perm m _).trans ?_
    refine (flatten_idxsOf_perm labels _ (nodup_uniqueSorted labels)).trans ?_
    have : (List.range labels.length).filter
        (fun i => decide (labels.getD i 0 ∈ uniqueSorted labels)) =
        List.range labels.length := by
      rw [List.filter_eq_self]
      intro i hi
      have hilt : i < labels.length := List.mem_range.mp hi
      have : labels.getD i 0 ∈ labels := by
        rw [List.getD_eq_getElem?_getD, List.getElem?_eq_getElem hilt]
        exact List.getElem_mem hilt
      simpa [mem_uniqueSorted] using this
    rw [this]
  refine ⟨hperm, hperm.nodup_iff.mpr (List.nodup_range _), ?_, ?_, ?_, ?_, ?_⟩
  · have := hperm.length_eq
    simpa [List.length_append] using this
  · exact bucketGroups_clusters m _
  · exact bucketGroups_singletons m _
  · exact cluster_centroid_length
  · exact cluster_vector_like_length

/-! ## Claim C7 — the nearest-prior strategy joins the earliest match -/

lemma vectorLikeState_succ (τ : ℚ) (embs : List Vec) (n : Nat) :
    vectorLikeState τ embs (n + 1) =
      vectorLikeStep τ embs (vectorLikeState τ embs n) n := by
  unfold vectorLikeState
  rw [List.range_succ, List.foldl_append]
  rfl

lemma vectorLikeState_succ_fst (τ : ℚ) (embs : List Vec) (n : Nat) :
    ∃ x, (vectorLikeState τ embs (n + 1)).1 =
      (vectorLikeState τ embs n).1 ++ [x] := by
  rw [vectorLikeState_succ]
  unfold vectorLikeStep
  cases h : (List.range n).filter
      (fun j => τ ≤ cosine (embs.getD n []) (embs.getD j [])) <;> simp [h]

lemma vl_getD_stable (τ : ℚ) (embs : List Vec) {j n m : Nat} (h1 : j < n)
    (h2 : n ≤ m) :
    (vectorLikeState τ embs m).1.getD j 0 =
      (vectorLikeState τ embs n).1.getD j 0 := by
  induction m with
  | zero =>
    have : n = 0 := Nat.le_zero.mp h2
    omega
  | succ m ih =>
    rcases Nat.lt_or_ge m n with hlt | hge
    · have : n = m + 1 := by omega
      rw [this]
    · obtain ⟨x, hx⟩ := vectorLikeState_succ_fst τ embs m
      rw [hx, List.getD_append _ _ _ j
        (by rw [vectorLikeState_fst_length]; omega)]
      exact ih hge

/-- A nonempty filter over `range i` starts with the least index satisfying
the predicate. -/
lemma filter_range_head {p : Nat → Bool} {i j : Nat} {rest : List Nat}
    (h : (List.range i).filter p = j :: rest) :
    p j = true ∧ j < i ∧ ∀ k, k < j → ¬ p k = true := by
  have hjmem : j ∈ (List.range i).filter p := by rw [h]; exact List.mem_cons_self j rest
  have hj := List.mem_filter.mp hjmem
  refine ⟨hj.2, List.mem_range.mp hj.1, ?_⟩
  intro k hk hpk
  have hkmem : k ∈ (List.range i).filter p := by
    refine List.mem_filter.mpr ⟨List.mem_range.mpr ?_, hpk⟩
    have := List.mem_range.mp hj.1
    omega
  rw [h] at hkmem
  rcases List.mem_cons.mp hkmem with heq | hmem
  · omega
  · have hpw : (j :: rest).Pairwise (· < ·) := by
      rw [← h]
      exact List.Pairwise.sublist (List.filter_sublist _) (List.pairwise_lt_range i)
    have := (List.pairwise_cons.mp hpw).1 k hmem
    omega

lemma vl_labels_lt_next (τ : ℚ) (embs : List Vec) :
    ∀ n, ∀ x ∈ (vectorLikeState τ embs n).1, x < (vectorLikeState τ embs n).2 := by
  intro n
  induction n with
  | zero => intro x hx; simp [vectorLikeState] at hx
  | succ m ih =>
    intro x hx
    rw [vectorLikeState_succ] at hx ⊢
    unfold vectorLikeStep at hx ⊢
    cases h : (List.range m).filter
        (fun j => τ ≤ cosine (embs.getD m []) (embs.getD j [])) with
    | nil =>
      simp only [h] at hx ⊢
      rcases List.mem_append.mp hx with hmem | hmem
      · exact Nat.lt_succ_of_lt (ih x hmem)
      · simp at hmem
        omega
    | cons j rest =>
      simp only [h] at hx ⊢
      rcases List.mem_append.mp hx with hmem | hmem
      · exact ih x hmem
      · simp at hmem
        subst hmem
        have hj : j < m := (filter_range_head h).2.1
        have hjlen : j < (vectorLikeState τ embs m).1.length := by
          rw [vectorLikeState_fst_length]; exact hj
        have hmem2 : (vectorLikeState τ embs m).1[j]?.getD 0 ∈
            (vectorLikeState τ embs m).1 := by
          rw [List.getElem?_eq_getElem hjlen]
          simp only [Option.getD_some]
          exact List.getElem_mem hjlen
        exact ih _ hmem2

/-- The conclusion of claim C7, as a predicate on the inputs: the nearest-prior
strategy emits one label per item; item `i` adopts the label of the first
(lowest-index) prior item whose similarity reaches `τ` — the earliest
acceptable match, not the best-scoring one — and otherwise gets a label
distinct from every earlier item's label (a fresh cluster). -/
def VectorLikeFirstMatchSpec (τ : ℚ) (embs : List Vec) (i : Nat) : Prop :=
  (cluster_vector_like τ embs).length = embs.length ∧
  (∀ j₀, j₀ < i → τ ≤ cosine (embs.getD i []) (embs.getD j₀ []) →
    (∀ k, k < j₀ → ¬ τ ≤ cosine (embs.getD i []) (embs.getD k [])) →
    (cluster_vector_like τ embs).getD i 0 =
      (cluster_vector_like τ embs).getD j₀ 0) ∧
  ((∀ j, j < i → ¬ τ ≤ cosine (embs.getD i []) (embs.getD j [])) →
    ∀ j, j < i →
      (cluster_vector_like τ embs).getD j 0 ≠
        (cluster_vector_like τ embs).getD i 0)

lemma getD_snoc_length {α : Type} (l : List α) (x d : α) :
    (l ++ [x]).getD l.length d = x := by
  rw [List.getD_eq_getElem _ _ (by simp)]
  simp

/-- Claim C7: `cluster_vector_like` assigns item `i` the cluster label of the
first prior item `j < i` with `cosine(i,j) ≥ τ`, and seeds a fresh label when
no prior item reaches `τ`. -/
theorem C7_vector_like_first_match (τ : ℚ) (embs : List Vec) (i : Nat)
    (hi : i < embs.length) : VectorLikeFirstMatchSpec τ embs i := by
  have hstable : ∀ j, j < i + 1 →
      (cluster_vector_like τ embs).getD j 0 =
        (vectorLikeState τ embs (i + 1)).1.getD j 0 := by
    intro j hj
    show (vectorLikeState τ embs embs.length).1.getD j 0 = _
    exact vl_getD_stable τ embs hj hi
  refine ⟨cluster_vector_like_length τ embs, ?_, ?_⟩
  · intro j₀ hj₀ hsim hleast
    rw [hstable i (by omega), hstable j₀ (by omega)]
    rw [vectorLikeState_succ]
    cases h : (List.range i).filter
        (fun j => τ ≤ cosine (embs.getD i []) (embs.getD j [])) with
    | nil =>
      exfalso
      have : j₀ ∈ (List.range i).filter
          (fun j => τ ≤ cosine (embs.getD i []) (embs.getD j [])) :=
        List.mem_filter.mpr ⟨List.mem_range.mpr hj₀, by simpa using hsim⟩
      rw [h] at this
      simp at this
    | cons j rest =>
      obtain ⟨hpj, hjlt, hmin⟩ := filter_range_head h
      have hjj₀ : j = j₀ := by
        rcases Nat.lt_trichotomy j j₀ with hlt | heq | hgt
        · exact absurd (by simpa using hpj) (hleast j hlt)
        · exact heq
        · exact absurd (by simpa using hsim) (by simpa using hmin j₀ hgt)
      subst hjj₀
      simp only [vectorLikeStep, h]
      have h1 : ((vectorLikeState τ embs i).1 ++
          [(vectorLikeState τ embs i).1.getD j 0]).getD i 0 =
          (vectorLikeState τ embs i).1.getD j 0 := by
        have := getD_snoc_length (vectorLikeState τ embs i).1
          ((vectorLikeState τ embs i).1.getD j 0) 0
        rwa [vectorLikeState_fst_length] at this
      have h2 : ((vectorLikeState τ embs i).1 ++
          [(vectorLikeState τ embs i).1.getD j 0]).getD j 0 =
          (vectorLikeState τ embs i).1.getD j 0 :=
        List.getD_append _ _ _ j (by rw [vectorLikeState_fst_length]; omega)
      rw [h1, h2]
  · intro hnone j hj
    rw [hstable i (by omega), hstable j (by omega), vectorLikeState_succ]
    have hfilter : (List.range i).filter
        (fun j => τ ≤ cosine (embs.getD i []) (embs.getD j [])) = [] := by
      rw [List.filter_eq_nil_iff]
      intro a ha
      simpa using hnone a (List.mem_range.mp ha)
    simp only [vectorLikeStep, hfilter]
    have hj' : j < (vectorLikeState τ embs i).1.length := by
      rw [vectorLikeState_fst_length]; omega
    rw [List.getD_append _ _ _ j hj']
    have hgetI : ((vectorLikeState τ embs i).1 ++
        [(vectorLikeState τ embs i).2]).getD i 0 =
        (vectorLikeState τ embs i).2 := by
      have := getD_snoc_length (vectorLikeState τ embs i).1
        (vectorLikeState τ embs i).2 0
      rwa [vectorLikeState_fst_length] at this
    rw [hgetI]
    have hmem : (vectorLikeState τ embs i).1.getD j 0 ∈
        (vectorLikeState τ embs i).1 := by
      rw [List.getD_eq_getElem _ _ hj']
      exact List.getElem_mem hj'
    exact Nat.ne_of_lt (vl_labels_lt_next τ embs i _ hmem)

/-- Witness for C7 at `τ = 1/2`, two identical one-dimensional embeddings,
`i = 1`. -/
theorem C7_vector_like_first_match_witness :
    1 < ([[(1 : ℚ)], [(1 : ℚ)]] : List Vec).length ∧
    VectorLikeFirstMatchSpec (1 / 2) [[(1 : ℚ)], [(1 : ℚ)]] 1 :=
  ⟨by decide, C7_vector_like_first_match (1 / 2) [[(1 : ℚ)], [(1 : ℚ)]] 1
    (by decide)⟩

/-! ## Claim C4 — the Phase-1 retry protocol -/

lemma retryFold_all_fail (f : Nat → Except Err (List SimilarFeedback))
    (d : ℚ) (R : Nat)
    (hfail : ∀ a, a < R → ∃ e, f a = Except.error e) :
    ∀ n s, s + n = R → 1 ≤ n → ∀ (calls : Nat) (slept : List ℚ),
    ∃ e, f (R - 1) = Except.error e ∧
      retryFold f d (R : ℤ) (List.range' s n) calls slept =
        (.error e, calls + n, slept ++ List.replicate (n - 1) d) := by
  intro n
  induction n with
  | zero => omega
  | succ m ih =>
    intro s hsum _ calls slept
    rcases Nat.eq_zero_or_pos m with hm | hm
    · subst hm
      have hs : s = R - 1 := by omega
      obtain ⟨e, he⟩ := hfail s (by omega)
      refine ⟨e, hs ▸ he, ?_⟩
      rw [List.range'_succ]
      simp only [retryFold, he]
      rw [if_neg (by omega)]
      simp
    · obtain ⟨e0, he0⟩ := hfail s (by omega)
      obtain ⟨e, he, hrec⟩ := ih (s + 1) (by omega) hm (calls + 1) (slept ++ [d])
      refine ⟨e, he, ?_⟩
      rw [List.range'_succ]
      simp only [retryFold, he0]
      rw [if_pos (by omega)]
      rw [hrec]
      have hl : slept ++ [d] ++ List.replicate (m - 1) d =
          slept ++ List.replicate m d := by
        rw [List.append_assoc]
        congr 1
        rw [show m = (m - 1) + 1 by omega, List.replicate_succ]
        simp
      rw [hl]
      congr 2
      omega

lemma query_existing_items_congr (R : Nat) (d : ℚ)
    (F G : String → Nat → Except Err (List SimilarFeedback))
    (h : ∀ id, (query_with_retry (F id) d R).1 = (query_with_retry (G id) d R).1) :
    ∀ items, query_existing_items R d F items = query_existing_items R d G items := by
  intro items
  induction items with
  | nil => rfl
  | cons it rest ih =>
    simp only [query_existing_items, h it.id, ih]

/-- The conclusion of claim C4 as a predicate on `R`, the fixed delay `d` and
a per-attempt outcome function `f`: an immediately successful query (also one
returning the empty match list) is accepted after exactly one call with no
sleep; `R` failing attempts make exactly `R` calls with `R-1` fixed-delay
sleeps and propagate the last error; with `R = 3`, failures on attempts 1 and
2 followed by a success yield the same value as an immediate success after
exactly 3 calls and two delays; batch decisions depend on Phase 1 only
through the per-item query values; and a Phase-1 error aborts `cluster_batch`
(whose only writes happen in Phase 3) before anything else happens. -/
def RetrySpec (R : Nat) (d : ℚ)
    (f : Nat → Except Err (List SimilarFeedback)) : Prop :=
  (∀ v, f 0 = .ok v → query_with_retry f d R = (.ok v, 1, [])) ∧
  ((∀ a, a < R → ∃ e, f a = Except.error e) →
    ∃ e, f (R - 1) = Except.error e ∧
      query_with_retry f d R = (.error e, R, List.replicate (R - 1) d)) ∧
  (∀ e₁ e₂ v, f 0 = Except.error e₁ → f 1 = Except.error e₂ → f 2 = .ok v →
    query_with_retry f d 3 = (.ok v, 3, [d, d]) ∧
    (query_with_retry f d 3).1 = (query_with_retry (fun _ => .ok v) d 3).1) ∧
  (∀ F G : String → Nat → Except Err (List SimilarFeedback),
    (∀ id, (query_with_retry (F id) d R).1 = (query_with_retry (G id) d R).1) →
    ∀ (τ : ℝ) (items : List Item) (embs : List Vec),
      cluster_batch τ R d items embs F = cluster_batch τ R d items embs G) ∧
  (∀ (τ : ℝ) (items : List Item) (embs : List Vec)
      (F : String → Nat → Except Err (List SimilarFeedback)) (e : Err),
    query_existing_items R d F items = .error e →
    cluster_batch τ R d items embs F = .error e) ∧
  (∀ (items : List Item)
      (F : String → Nat → Except Err (List SimilarFeedback)),
    (∃ it ∈ items, ∀ a, a < R → ∃ e, F it.id a = Except.error e) →
    ∃ e, query_existing_items R d F items = .error e)

/-- Claim C4: the Phase-1 retry loop makes up to `R` call attempts with a
fixed delay between consecutive attempts, propagates the error and aborts the
batch after `R` failures, accepts empty results without retrying, and is
transparent: recovery on the third of three attempts produces the same batch
decisions as an immediate success. -/
theorem C4_retry_protocol (R : Nat) (d : ℚ)
    (f : Nat → Except Err (List SimilarFeedback)) (hR : 1 ≤ R) :
    RetrySpec R d f := by
  refine ⟨?_, ?_, ?_, ?_, ?_, ?_⟩
  · intro v hv
    obtain ⟨m, rfl⟩ : ∃ m, R = m + 1 := ⟨R - 1, by omega⟩
    unfold query_with_retry
    rw [List.range_succ_eq_map]
    simp [retryFold, hv]
  · intro hfail
    obtain ⟨e, he, hfold⟩ := retryFold_all_fail f d R hfail R 0 (by omega) hR 0 []
    refine ⟨e, he, ?_⟩
    unfold query_with_retry
    rw [List.range_eq_range', hfold]
    simp
  · intro e₁ e₂ v h0 h1 h2
    have hrun : query_with_retry f d 3 = (.ok v, 3, [d, d]) := by
      have hr : List.range 3 = [0, 1, 2] := by decide
      unfold query_with_retry
      rw [hr]
      simp only [retryFold, h0, h1, h2]
      norm_num
    refine ⟨hrun, ?_⟩
    rw [hrun]
    have : query_with_retry (fun _ => Except.ok v) d 3 = (.ok v, 1, []) := by
      have hr : List.range 3 = [0, 1, 2] := by decide
      unfold query_with_retry
      rw [hr]
      simp [retryFold]
    rw [this]
  · intro F G h τ items embs
    unfold cluster_batch
    rw [query_existing_items_congr R d F G h items]
  · intro τ items embs F e herr
    unfold cluster_batch
    rw [herr]
  · intro items F hex
    obtain ⟨it, hit, hfail⟩ := hex
    induction items with
    | nil => simp at hit
    | cons hd rest ih =>
      rcases List.mem_cons.mp hit with heq | hmem
      · subst heq
        obtain ⟨e, _, hfold⟩ :=
          retryFold_all_fail (F it.id) d R hfail R 0 (by omega) hR 0 []
        refine ⟨e, ?_⟩
        simp only [query_existing_items, query_with_retry,
          List.range_eq_range', hfold]
      · cases hq : (query_with_retry (F hd.id) d R).1 with
        | error e => exact ⟨e, by simp only [query_existing_items, hq]⟩
        | ok similar =>
          obtain ⟨e, hrec⟩ := ih hmem
          refine ⟨e, ?_⟩
          simp only [query_existing_items, hq, hrec]

/-- Witness for C4 at `R = 3`, `d = 1/2` and an immediately succeeding query
function. -/
theorem C4_retry_protocol_witness :
    1 ≤ 3 ∧ RetrySpec 3 (1 / 2) (fun _ => Except.ok []) :=
  ⟨by decide, C4_retry_protocol 3 (1 / 2) (fun _ => Except.ok []) (by decide)⟩

/-! ## Claim C6 — the centroid strategy: vector algebra and argmax facts -/

lemma vadd_comm (a b : Vec) : vadd a b = vadd b a := by
  unfold vadd
  induction a generalizing b with
  | nil => cases b <;> simp
  | cons x xs ih =>
    cases b with
    | nil => simp
    | cons y ys => simp [add_comm, ih]

lemma vadd_assoc (a b c : Vec) : vadd (vadd a b) c = vadd a (vadd b c) := by
  unfold vadd
  induction a generalizing b c with
  | nil => simp
  | cons x xs ih =>
    cases b with
    | nil => simp
    | cons y ys =>
      cases c with
      | nil => simp
      | cons z zs => simp [add_assoc, ih]

lemma vadd_length (a b : Vec) : (vadd a b).length = min a.length b.length := by
  simp [vadd]

lemma smul_length (c : ℚ) (a : Vec) : (smul c a).length = a.length := by
  simp [smul]

lemma vadd_zeroVec (a : Vec) {d : Nat} (h : a.length = d) :
    vadd a (zeroVec d) = a := by
  subst h
  unfold vadd zeroVec
  induction a with
  | nil => simp
  | cons x xs ih => simp [List.replicate_succ, ih]

lemma smul_one_vec (a : Vec) : smul 1 a = a := by
  simp [smul]

lemma smul_smul_vec (c c' : ℚ) (a : Vec) :
    smul c (smul c' a) = smul (c * c') a := by
  simp [smul, Function.comp, mul_assoc]

lemma zeroVec_length (d : Nat) : (zeroVec d).length = d := by
  simp [zeroVec]

lemma vsum_nil (d : Nat) : vsum d [] = zeroVec d := rfl

lemma vsum_cons (d : Nat) (v : Vec) (vs : List Vec) :
    vsum d (v :: vs) = vadd v (vsum d vs) := rfl

lemma vsum_length (d : Nat) (vs : List Vec) (h : ∀ v ∈ vs, v.length = d) :
    (vsum d vs).length = d := by
  induction vs with
  | nil => simp [vsum_nil, zeroVec_length]
  | cons v vs ih =>
    rw [vsum_cons, vadd_length, h v (List.mem_cons_self v vs),
      ih (fun w hw => h w (List.mem_cons_of_mem v hw))]
    omega

lemma vsum_snoc (d : Nat) (vs : List Vec) (e : Vec)
    (hvs : ∀ v ∈ vs, v.length = d) (he : e.length = d) :
    vsum d (vs ++ [e]) = vadd (vsum d vs) e := by
  induction vs with
  | nil =>
    rw [List.nil_append, vsum_cons, vsum_nil]
    exact vadd_comm e (zeroVec d)
  | cons v vs ih =>
    rw [List.cons_append, vsum_cons, vsum_cons,
      ih (fun w hw => hvs w (List.mem_cons_of_mem v hw)), ← vadd_assoc]

lemma smul_vadd (c : ℚ) (a b : Vec) :
    smul c (vadd a b) = vadd (smul c a) (smul c b) := by
  unfold smul vadd
  induction a generalizing b with
  | nil => simp
  | cons x xs ih =>
    cases b with
    | nil => simp
    | cons y ys => simp [mul_add, ih]

lemma vmean_single (d : Nat) (e : Vec) (he : e.length = d) :
    vmean d [e] = e := by
  unfold vmean
  rw [vsum_cons, vsum_nil, vadd_zeroVec e he]
  simp [smul_one_vec]

lemma vmean_snoc (d : Nat) (vs : List Vec) (e : Vec)
    (hvs : ∀ v ∈ vs, v.length = d) (he : e.length = d)
    (hne : vs.length ≠ 0) :
    vmean d (vs ++ [e]) =
      smul (1 / ((vs.length : ℚ) + 1))
        (vadd (smul (vs.length : ℚ) (vmean d vs)) e) := by
  unfold vmean
  rw [vsum_snoc d vs e hvs he, smul_smul_vec]
  have hq : (vs.length : ℚ) ≠ 0 := by exact_mod_cast hne
  rw [show (vs.length : ℚ) * (1 / (vs.length : ℚ)) = 1 by field_simp]
  rw [smul_one_vec]
  congr 1
  rw [List.length_append]
  push_cast
  norm_num

lemma indexOf_getD (l : List ℚ) (m : ℚ) (h : m ∈ l) :
    l.indexOf m < l.length ∧ l.getD (l.indexOf m) 0 = m ∧
      ∀ j, j < l.indexOf m → l.getD j 0 ≠ m := by
  induction l with
  | nil => simp at h
  | cons x xs ih =>
    by_cases hx : x = m
    · subst hx
      rw [List.indexOf_cons_self]
      exact ⟨by simp, by simp, by omega⟩
    · have hm : m ∈ xs := by
        rcases List.mem_cons.mp h with heq | hmem
        · exact absurd heq.symm hx
        · exact hmem
      obtain ⟨h1, h2, h3⟩ := ih hm
      rw [List.indexOf_cons_ne _ hx]
      refine ⟨by simp; omega, ?_, ?_⟩
      · simpa using h2
      · intro j hj
        cases j with
        | zero => simpa using hx
        | succ j' =>
          have := h3 j' (by omega)
          simpa using this

lemma argmaxQ_spec (l : List ℚ) (h : l ≠ []) :
    argmaxQ l < l.length ∧
    (∀ j, j < l.length → l.getD j 0 ≤ l.getD (argmaxQ l) 0) ∧
    (∀ j, j < argmaxQ l → l.getD j 0 < l.getD (argmaxQ l) 0) := by
  cases hmax : l.maximum with
  | bot => exact absurd (List.maximum_eq_none.mp hmax) h
  | coe m =>
    have heq : argmaxQ l = l.indexOf m := by
      unfold argmaxQ
      rw [hmax]
    rw [heq]
    have hmem : m ∈ l := List.maximum_mem hmax
    obtain ⟨h1, h2, h3⟩ := indexOf_getD l m hmem
    refine ⟨h1, ?_, ?_⟩
    · intro j hj
      rw [h2]
      have : l.getD j 0 ∈ l := by
        rw [List.getD_eq_getElem _ _ hj]
        exact List.getElem_mem hj
      exact List.le_maximum_of_mem this hmax
    · intro j hj
      rw [h2]
      have hjl : j < l.length := by omega
      have hmem' : l.getD j 0 ∈ l := by
        rw [List.getD_eq_getElem _ _ hjl]
        exact List.getElem_mem hjl
      exact lt_of_le_of_ne (List.le_maximum_of_mem hmem' hmax) (h3 j hj)

/-! ## Claim C6 — assignment bookkeeping -/

/-- The embeddings assigned to cluster `k` so far, in assignment order. -/
def assignedTo (labels : List Nat) (embs : List Vec) (k : Nat) : List Vec :=
  ((labels.zip embs).filter (fun p => p.1 = k)).map Prod.snd

lemma assignedTo_nil (k : Nat) : assignedTo [] [] k = [] := rfl

lemma assignedTo_snoc (labels : List Nat) (embs : List Vec)
    (k newLbl : Nat) (e : Vec) (hlen : labels.length = embs.length) :
    assignedTo (labels ++ [newLbl]) (embs ++ [e]) k =
      assignedTo labels embs k ++ (if newLbl = k then [e] else []) := by
  unfold assignedTo
  rw [List.zip_append hlen, List.filter_append, List.map_append]
  congr 1
  by_cases h : newLbl = k <;> simp [h]

lemma assignedTo_lengths (labels : List Nat) (embs : List Vec) (k d : Nat)
    (h : ∀ v ∈ embs, v.length = d) :
    ∀ v ∈ assignedTo labels embs k, v.length = d := by
  intro v hv
  unfold assignedTo at hv
  obtain ⟨⟨lbl, w⟩, hmem, rfl⟩ := List.mem_map.mp hv
  exact h _ (List.of_mem_zip (List.mem_filter.mp hmem).1).2

lemma assignedTo_length_eq_count (labels : List Nat) (embs : List Vec)
    (k : Nat) (hlen : labels.length = embs.length) :
    (assignedTo labels embs k).length = labels.count k := by
  unfold assignedTo
  rw [List.length_map, ← List.countP_eq_length_filter]
  induction labels generalizing embs with
  | nil => simp [List.count_nil]
  | cons lbl rest ih =>
    cases embs with
    | nil => simp at hlen
    | cons e embs' =>
      rw [List.zip_cons_cons, List.countP_cons, List.count_cons]
      rw [ih embs' (by simpa using hlen)]
      by_cases h : lbl = k <;> simp [h]

lemma getD_set_self {α : Type} (l : List α) (k : Nat) (c d : α)
    (hk : k < l.length) : (l.set k c).getD k d = c := by
  rw [List.getD_eq_getElem _ _ (by rw [List.length_set]; exact hk)]
  exact List.getElem_set_self _

lemma getD_set_ne {α : Type} (l : List α) (k j : Nat) (c d : α)
    (hj : j < l.length) (h : k ≠ j) :
    (l.set k c).getD j d = l.getD j d := by
  rw [List.getD_eq_getElem _ _ (by rw [List.length_set]; exact hj),
    List.getD_eq_getElem _ _ hj]
  exact List.getElem_set_ne h _

/-- The similarity row the centroid loop computes for item `i`:
`sims = [cosine(emb, c) for c in centroids]`. -/
def simsAt (τ : ℚ) (embs : List Vec) (i : Nat) : List ℚ :=
  (centroidState τ (List.take i embs)).1.map
    (fun c => cosine (embs.getD i []) c)

/-- The invariant of the centroid loop after processing the embeddings
`done`: one label per item, all centroids of dimension `d`, labels inside
range, every cluster nonempty, and every centroid equal to the arithmetic
mean of the embeddings assigned to it. -/
def GoodState (d : Nat) (done : List Vec) (st : List Vec × List Nat) : Prop :=
  st.2.length = done.length ∧
  (∀ j, j < st.1.length → (st.1.getD j []).length = d) ∧
  (∀ lbl ∈ st.2, lbl < st.1.length) ∧
  ∀ k, k < st.1.length →
    st.2.count k ≠ 0 ∧
    st.1.getD k [] = vmean d (assignedTo st.2 done k)

lemma centroidStep_seed (τ : ℚ) (st : List Vec × List Nat) (e : Vec)
    (h : ∀ j, j < st.1.length →
      ¬ τ ≤ (st.1.map (fun c => cosine e c)).getD j 0) :
    centroidStep τ st e = (st.1 ++ [e], st.2 ++ [st.1.length]) := by
  by_cases h0 : st.1 = []
  · simp [centroidStep, h0]
  · have hne : st.1.map (fun c => cosine e c) ≠ [] := by simpa using h0
    have hlt := (argmaxQ_spec _ hne).1
    rw [List.length_map] at hlt
    have hcond := h _ hlt
    simp only [centroidStep]
    rw [if_neg h0, if_neg hcond]

lemma centroidStep_join (τ : ℚ) (st : List Vec × List Nat) (e : Vec)
    (h0 : st.1 ≠ [])
    (h : τ ≤ (st.1.map (fun c => cosine e c)).getD
      (argmaxQ (st.1.map (fun c => cosine e c))) 0) :
    centroidStep τ st e =
      (st.1.set (argmaxQ (st.1.map (fun c => cosine e c)))
        (smul (1 / ((st.2.count (argmaxQ (st.1.map (fun c => cosine e c))) : ℚ) + 1))
          (vadd (smul ((st.2.count (argmaxQ (st.1.map (fun c => cosine e c)))) : ℚ)
            (st.1.getD (argmaxQ (st.1.map (fun c => cosine e c))) [])) e)),
       st.2 ++ [argmaxQ (st.1.map (fun c => cosine e c))]) := by
  simp only [centroidStep]
  rw [if_neg h0, if_pos h]

lemma centroidStep_good (τ : ℚ) (d : Nat) (done : List Vec)
    (st : List Vec × List Nat) (e : Vec)
    (hdone : ∀ v ∈ done, v.length = d)
    (hg : GoodState d done st) (he : e.length = d) :
    GoodState d (done ++ [e]) (centroidStep τ st e) := by
  obtain ⟨hlen, hcd, hbound, hmean⟩ := hg
  by_cases h0 : st.1 = []
  · -- first item: seed centroid 0
    have h2 : st.2 = [] := by
      cases hst2 : st.2 with
      | nil => rfl
      | cons lbl rest =>
        have := hbound lbl (by rw [hst2]; exact List.mem_cons_self _ _)
        rw [h0] at this
        simp at this
    have hdnil : done = [] := by
      rw [h2] at hlen
      exact (List.length_eq_zero.mp hlen.symm)
    have hstep : centroidStep τ st e = ([e], st.2 ++ [0]) := by
      simp only [centroidStep]
      rw [if_pos h0]
    rw [hstep, h2, hdnil]
    refine ⟨by simp, ?_, by simp, ?_⟩
    · intro j hj
      have : j = 0 := by simpa using hj
      subst this
      simpa using he
    · intro k hk
      have hk0 : k = 0 := by simpa using hk
      subst hk0
      refine ⟨by simp, ?_⟩
      have hassign : assignedTo ([] ++ [0]) ([] ++ [e]) 0 = [e] := by
        rw [assignedTo_snoc [] [] 0 0 e rfl]
        simp [assignedTo]
      simp only [List.nil_append] at hassign ⊢
      rw [hassign, vmean_single d e he]
      simp
  · have hsne : st.1.map (fun c => cosine e c) ≠ [] := by simpa using h0
    obtain ⟨hb1, hb2, hb3⟩ := argmaxQ_spec _ hsne
    have hbest : argmaxQ (st.1.map (fun c => cosine e c)) < st.1.length := by
      rwa [List.length_map] at hb1
    by_cases hj : τ ≤ (st.1.map (fun c => cosine e c)).getD
        (argmaxQ (st.1.map (fun c => cosine e c))) 0
    · -- join the best centroid
      rw [centroidStep_join τ st e h0 hj]
      set best := argmaxQ (st.1.map (fun c => cosine e c)) with hbestdef
      set cnt := st.2.count best with hcnt
      set c' := smul (1 / ((cnt : ℚ) + 1))
        (vadd (smul (cnt : ℚ) (st.1.getD best [])) e) with hc'
      refine ⟨by simp [hlen], ?_, ?_, ?_⟩
      · intro j hjl
        rw [List.length_set] at hjl
        by_cases hjb : best = j
        · subst hjb
          rw [getD_set_self _ _ _ _ hjl]
          rw [hc', smul_length, vadd_length, smul_length, he,
            hcd best hbest]
          omega
        · rw [getD_set_ne _ _ _ _ _ hjl hjb]
          exact hcd j hjl
      · intro lbl hlbl
        rw [List.length_set]
        rcases List.mem_append.mp hlbl with hmem | hmem
        · exact hbound lbl hmem
        · simp at hmem
          subst hmem
          exact hbest
      · intro k hk
        rw [List.length_set] at hk
        by_cases hkb : k = best
        · subst hkb
          constructor
          · rw [List.count_append]
            have := (hmean best hk).1
            omega
          · rw [getD_set_self _ _ _ _ hk]
            have hassign := assignedTo_snoc st.2 done best best e hlen
            rw [if_pos rfl] at hassign
            rw [hassign]
            have hvs : ∀ v ∈ assignedTo st.2 done best, v.length = d :=
              assignedTo_lengths st.2 done best d hdone
            have hvslen : (assignedTo st.2 done best).length = st.2.count best :=
              assignedTo_length_eq_count st.2 done best hlen
            have hne0 : (assignedTo st.2 done best).length ≠ 0 := by
              rw [hvslen]
              exact (hmean best hk).1
            rw [vmean_snoc d _ e hvs he hne0, hvslen, ← (hmean best hk).2]
        · constructor
          · rw [List.count_append]
            have := (hmean k hk).1
            omega
          · rw [getD_set_ne _ _ _ _ _ hk (fun hx => hkb hx.symm)]
            have hassign := assignedTo_snoc st.2 done k best e hlen
            rw [if_neg (fun hx => hkb hx.symm)] at hassign
            rw [List.append_nil] at hassign
            rw [hassign]
            exact (hmean k hk).2
    · -- seed a new centroid
      have hall : ∀ j, j < st.1.length →
          ¬ τ ≤ (st.1.map (fun c => cosine e c)).getD j 0 := by
        intro j hjl hτ
        exact hj (le_trans hτ (hb2 j (by rwa [List.length_map])))
      rw [centroidStep_seed τ st e hall]
      refine ⟨by simp [hlen], ?_, ?_, ?_⟩
      · intro j hjl
        rw [List.length_append, List.length_singleton] at hjl
        rcases Nat.lt_or_ge j st.1.length with hlt | hge
        · rw [List.getD_append _ _ _ _ hlt]
          exact hcd j hlt
        · have hjeq : j = st.1.length := by omega
          subst hjeq
          rw [getD_snoc_length]
          exact he
      · intro lbl hlbl
        rw [List.length_append, List.length_singleton]
        rcases List.mem_append.mp hlbl with hmem | hmem
        · have := hbound lbl hmem
          omega
        · simp at hmem
          omega
      · intro k hk
        rw [List.length_append, List.length_singleton] at hk
        rcases Nat.lt_or_ge k st.1.length with hlt | hge
        · constructor
          · rw [List.count_append]
            have := (hmean k hlt).1
            omega
          · rw [List.getD_append _ _ _ _ hlt]
            have hassign := assignedTo_snoc st.2 done k st.1.length e hlen
            rw [if_neg (by omega)] at hassign
            rw [List.append_nil] at hassign
            rw [hassign]
            exact (hmean k hlt).2
        · have hkeq : k = st.1.length := by omega
          subst hkeq
          have hcount0 : st.2.count st.1.length = 0 := by
            rw [List.count_eq_zero]
            intro hmem
            exact absurd (hbound _ hmem) (lt_irrefl _)
          constructor
          · rw [List.count_append, hcount0]
            simp
          · rw [getD_snoc_length]
            have hassign := assignedTo_snoc st.2 done st.1.length st.1.length e hlen
            rw [if_pos rfl] at hassign
            rw [hassign]
            have : assignedTo st.2 done st.1.length = [] := by
              apply List.length_eq_zero.mp
              rw [assignedTo_length_eq_count st.2 done _ hlen, hcount0]
            rw [this, List.nil_append, vmean_single d e he]

lemma centroidState_good (τ : ℚ) (d : Nat) :
    ∀ embs : List Vec, (∀ v ∈ embs, v.length = d) →
      GoodState d embs (centroidState τ embs) := by
  intro embs
  induction embs using List.reverseRecOn with
  | nil =>
    intro _
    refine ⟨rfl, ?_, ?_, ?_⟩ <;> simp [centroidState]
  | append_singleton l e ih =>
    intro h
    have hl : ∀ v ∈ l, v.length = d := fun v hv => h v (List.mem_append_left _ hv)
    have he : e.length = d := h e (by simp)
    have hstep : centroidState τ (l ++ [e]) = centroidStep τ (centroidState τ l) e := by
      unfold centroidState
      rw [List.foldl_append]
      rfl
    rw [hstep]
    exact centroidStep_good τ d l (centroidState τ l) e hl (ih hl) he

lemma centroidState_take_succ (τ : ℚ) (embs : List Vec) (i : Nat)
    (hi : i < embs.length) :
    centroidState τ (List.take (i + 1) embs) =
      centroidStep τ (centroidState τ (List.take i embs)) (embs.getD i []) := by
  unfold centroidState
  rw [List.take_succ, List.getElem?_eq_getElem hi, List.getD_eq_getElem _ _ hi]
  rw [List.foldl_append]
  rfl

/-- The conclusion of claim C6 as a predicate: the centroid strategy emits one
label per item; after every prefix of the input, every centroid is the
arithmetic mean of the embeddings assigned to its (nonempty) cluster so far;
and at each step the item either joins the centroid of highest similarity
when that similarity reaches `τ` — ties broken in favor of the lowest
centroid index — or, when no centroid reaches `τ`, seeds a new centroid equal
to its own embedding. -/
def CentroidSpec (τ : ℚ) (embs : List Vec) (d : Nat) : Prop :=
  (cluster_centroid τ embs).length = embs.length ∧
  (∀ i, i ≤ embs.length → ∀ k,
    k < (centroidState τ (List.take i embs)).1.length →
    (centroidState τ (List.take i embs)).2.count k ≠ 0 ∧
    (centroidState τ (List.take i embs)).1.getD k [] =
      vmean d (assignedTo (centroidState τ (List.take i embs)).2
        (List.take i embs) k)) ∧
  (∀ i, i < embs.length →
    ((∀ j, j < (centroidState τ (List.take i embs)).1.length →
        ¬ τ ≤ (simsAt τ embs i).getD j 0) →
      centroidState τ (List.take (i + 1) embs) =
        ((centroidState τ (List.take i embs)).1 ++ [embs.getD i []],
         (centroidState τ (List.take i embs)).2 ++
           [(centroidState τ (List.take i embs)).1.length])) ∧
    ((∃ j, j < (centroidState τ (List.take i embs)).1.length ∧
        τ ≤ (simsAt τ embs i).getD j 0) →
      ∃ k, k < (centroidState τ (List.take i embs)).1.length ∧
        τ ≤ (simsAt τ embs i).getD k 0 ∧
        (∀ j, j < (centroidState τ (List.take i embs)).1.length →
          (simsAt τ embs i).getD j 0 ≤ (simsAt τ embs i).getD k 0) ∧
        (∀ j, j < k →
          (simsAt τ embs i).getD j 0 < (simsAt τ embs i).getD k 0) ∧
        (centroidState τ (List.take (i + 1) embs)).2 =
          (centroidState τ (List.take i embs)).2 ++ [k] ∧
        (centroidState τ (List.take (i + 1) embs)).1.length =
          (centroidState τ (List.take i embs)).1.length))

/-- Claim C6: the centroid strategy is sequential greedy with running
un-renormalized arithmetic-mean centroids, argmax assignment with the
threshold test and lowest-index tie-breaking, and seeding otherwise. -/
theorem C6_centroid_greedy_mean (τ : ℚ) (embs : List Vec) (d : Nat)
    (hd : ∀ v ∈ embs, v.length = d) : CentroidSpec τ embs d := by
  refine ⟨cluster_centroid_length τ embs, ?_, ?_⟩
  · intro i _ k hk
    have h' : ∀ v ∈ List.take i embs, v.length = d :=
      fun v hv => hd v (List.take_subset i embs hv)
    exact (centroidState_good τ d (List.take i embs) h').2.2.2 k hk
  · intro i hi
    have hsucc := centroidState_take_succ τ embs i hi
    constructor
    · intro hnone
      rw [hsucc, centroidStep_seed τ _ _ hnone]
    · rintro ⟨j, hjl, hjτ⟩
      have hst1 : (centroidState τ (List.take i embs)).1 ≠ [] := by
        intro hnil
        rw [hnil] at hjl
        simp at hjl
      have hsne : (centroidState τ (List.take i embs)).1.map
          (fun c => cosine (embs.getD i []) c) ≠ [] := by simpa using hst1
      obtain ⟨hb1, hb2, hb3⟩ := argmaxQ_spec _ hsne
      have hbest : argmaxQ ((centroidState τ (List.take i embs)).1.map
          (fun c => cosine (embs.getD i []) c)) <
          (centroidState τ (List.take i embs)).1.length := by
        rwa [List.length_map] at hb1
      have hcond : τ ≤ ((centroidState τ (List.take i embs)).1.map
          (fun c => cosine (embs.getD i []) c)).getD
          (argmaxQ ((centroidState τ (List.take i embs)).1.map
            (fun c => cosine (embs.getD i []) c))) 0 :=
        le_trans hjτ (hb2 j (by rwa [List.length_map]))
      refine ⟨argmaxQ ((centroidState τ (List.take i embs)).1.map
        (fun c => cosine (embs.getD i []) c)), hbest, hcond, ?_, ?_, ?_, ?_⟩
      · intro j' hj'
        exact hb2 j' (by rwa [List.length_map])
      · intro j' hj'
        exact hb3 j' hj'
      · rw [hsucc, centroidStep_join τ _ _ hst1 hcond]
      · rw [hsucc, centroidStep_join τ _ _ hst1 hcond]
        simp [List.length_set]

/-- Witness for C6 at `τ = 1/2`, two identical one-dimensional embeddings. -/
theorem C6_centroid_greedy_mean_witness :
    (∀ v ∈ ([[(1 : ℚ)], [(1 : ℚ)]] : List Vec), v.length = 1) ∧
    CentroidSpec (1 / 2) [[(1 : ℚ)], [(1 : ℚ)]] 1 :=
  ⟨by decide, C6_centroid_greedy_mean (1 / 2) [[(1 : ℚ)], [(1 : ℚ)]] 1 (by decide)⟩

/-! ## Claims C1 and C8 — structural facts about `appendMember` and lookups -/

/-- The item id the engine reads for batch index `i`. -/
abbrev itemIdAt (items : List Item) (i : Nat) : String :=
  (items.getD i default).id

lemma appendMember_keys (m : List (ClusterId × List String)) (cid : ClusterId)
    (x : String) :
    (appendMember m cid x).map Prod.fst =
      if cid ∈ m.map Prod.fst then m.map Prod.fst
      else m.map Prod.fst ++ [cid] := by
  induction m with
  | nil => simp [appendMember]
  | cons p rest ih =>
    obtain ⟨c, xs⟩ := p
    by_cases h : c = cid
    · subst h
      simp [appendMember]
    · simp only [appendMember, if_neg h, List.map_cons, ih]
      by_cases hmem : cid ∈ rest.map Prod.fst
      · rw [if_pos hmem, if_pos (List.mem_cons_of_mem c hmem)]
      · rw [if_neg hmem, if_neg (by
          rw [List.mem_cons]
          push_neg
          exact ⟨fun hx => h hx.symm, hmem⟩)]
        simp

lemma appendMember_keys_nodup (m : List (ClusterId × List String))
    (cid : ClusterId) (x : String) (h : (m.map Prod.fst).Nodup) :
    ((appendMember m cid x).map Prod.fst).Nodup := by
  rw [appendMember_keys]
  by_cases hmem : cid ∈ m.map Prod.fst
  · rwa [if_pos hmem]
  · rw [if_neg hmem]
    rw [List.nodup_append]
    exact ⟨h, List.nodup_singleton cid, by simpa using hmem⟩

lemma appendMember_flatten_perm (m : List (ClusterId × List String))
    (cid : ClusterId) (x : String) :
    (((appendMember m cid x).map Prod.snd).flatten).Perm
      ((m.map Prod.snd).flatten ++ [x]) := by
  induction m with
  | nil => simp [appendMember]
  | cons p rest ih =>
    obtain ⟨c, xs⟩ := p
    by_cases h : c = cid
    · subst h
      have hm : appendMember ((c, xs) :: rest) c x = (c, xs ++ [x]) :: rest := by
        simp [appendMember]
      rw [hm]
      simp only [List.map_cons, List.flatten_cons]
      simpa only [List.append_assoc] using
        (@List.perm_append_comm _ [x] ((rest.map Prod.snd).flatten)).append_left xs
    · have hm : appendMember ((c, xs) :: rest) cid x =
          (c, xs) :: appendMember rest cid x := by
        simp [appendMember, h]
      rw [hm]
      simp only [List.map_cons, List.flatten_cons]
      simpa only [List.append_assoc] using ih.append_left xs

lemma appendMember_lookup_self (m : List (ClusterId × List String))
    (cid : ClusterId) (x : String) :
    (appendMember m cid x).lookup cid =
      some ((m.lookup cid).getD [] ++ [x]) := by
  induction m with
  | nil => simp [appendMember, List.lookup]
  | cons p rest ih =>
    obtain ⟨c, xs⟩ := p
    by_cases h : c = cid
    · subst h
      simp [appendMember, List.lookup]
    · have hb : (cid == c) = false := beq_eq_false_iff_ne.mpr fun hx => h hx.symm
      simp only [appendMember, if_neg h]
      simp [List.lookup, hb, ih]

lemma appendMember_lookup_ne (m : List (ClusterId × List String))
    (cid k : ClusterId) (x : String) (h : k ≠ cid) :
    (appendMember m cid x).lookup k = m.lookup k := by
  induction m with
  | nil =>
    have hb : (k == cid) = false := beq_eq_false_iff_ne.mpr h
    simp [appendMember, List.lookup, hb]
  | cons p rest ih =>
    obtain ⟨c, xs⟩ := p
    by_cases hc : c = cid
    · subst hc
      have hb : (k == c) = false := beq_eq_false_iff_ne.mpr h
      simp [appendMember, List.lookup, hb]
    · by_cases hck : k = c
      · subst hck
        simp [appendMember, if_neg hc, List.lookup]
      · have hb : (k == c) = false := beq_eq_false_iff_ne.mpr hck
        simp [appendMember, if_neg hc, List.lookup, hb, ih]

lemma phase2State_succ (τ : ℝ) (items : List Item) (embs : List Vec)
    (qm : String → List SimilarFeedback) (p : Nat) :
    phase2State τ items embs qm (p + 1) =
      phase2Step τ items embs qm (phase2State τ items embs qm p) p := by
  unfold phase2State
  rw [List.range_succ, List.foldl_append]
  rfl

/-- Trichotomy of one Phase-2 step: whatever branch fires, the step appends
exactly one audit entry, assigns the item to exactly one cluster, appends the
item to that cluster's member list, and bumps the uuid supply only on
`created_new`; the three disjuncts describe the three checks of the source. -/
lemma phase2Step_cases (τ : ℝ) (items : List Item) (embs : List Vec)
    (qm : String → List SimilarFeedback) (st : EngineState) (i : Nat) :
    ∃ dec : ClusteringDecision,
      dec.item_id = itemIdAt items i ∧
      phase2Step τ items embs qm st i =
        { item_to_cluster := (itemIdAt items i, dec.cluster_id) :: st.item_to_cluster
          audit := st.audit ++ [(itemIdAt items i, dec)]
          members := appendMember st.members dec.cluster_id (itemIdAt items i)
          freshCount := st.freshCount +
            (if dec.decision_type = DecisionType.created_new then 1 else 0) } ∧
      ((∃ target rest, clusteredExisting (qm (itemIdAt items i)) = target :: rest ∧
          dec = { item_id := itemIdAt items i,
                  cluster_id := ClusterId.ext ((matchClusterId target).getD ""),
                  decision_type := .joined_existing,
                  similarity_score := some target.score,
                  matched_item_id := some target.id }) ∨
       (clusteredExisting (qm (itemIdAt items i)) = [] ∧
          ∃ j prev_id c s,
            firstBatchJoin τ items embs st.item_to_cluster (embs.getD i [])
              (List.range i) = some (j, prev_id, c, s) ∧
            dec = { item_id := itemIdAt items i, cluster_id := c,
                    decision_type := .joined_batch,
                    similarity_score := some s,
                    matched_item_id := some prev_id }) ∨
       (clusteredExisting (qm (itemIdAt items i)) = [] ∧
          firstBatchJoin τ items embs st.item_to_cluster (embs.getD i [])
            (List.range i) = none ∧
          dec = { item_id := itemIdAt items i,
                  cluster_id := ClusterId.fresh st.freshCount,
                  decision_type := .created_new,
                  similarity_score := none,
                  matched_item_id := none })) := by
  cases hm : clusteredExisting (qm (itemIdAt items i)) with
  | cons target rest =>
    refine ⟨{ item_id := itemIdAt items i,
              cluster_id := ClusterId.ext ((matchClusterId target).getD ""),
              decision_type := .joined_existing,
              similarity_score := some target.score,
              matched_item_id := some target.id }, rfl, ?_,
            Or.inl ⟨target, rest, rfl, rfl⟩⟩
    simp only [phase2Step, hm]
    simp [itemIdAt, List.getD_eq_getElem?_getD]
  | nil =>
    cases hb : firstBatchJoin τ items embs st.item_to_cluster (embs.getD i [])
        (List.range i) with
    | some t =>
      obtain ⟨j, prev_id, c, s⟩ := t
      refine ⟨{ item_id := itemIdAt items i, cluster_id := c,
                decision_type := .joined_batch,
                similarity_score := some s,
                matched_item_id := some prev_id }, rfl, ?_,
              Or.inr (Or.inl ⟨rfl, j, prev_id, c, s, rfl, rfl⟩)⟩
      simp only [phase2Step, hm, hb]
      simp [itemIdAt, List.getD_eq_getElem?_getD]
    | none =>
      refine ⟨{ item_id := itemIdAt items i,
                cluster_id := ClusterId.fresh st.freshCount,
                decision_type := .created_new,
                similarity_score := none,
                matched_item_id := none }, rfl, ?_,
              Or.inr (Or.inr ⟨rfl, rfl, rfl⟩)⟩
      simp only [phase2Step, hm, hb]
      simp [itemIdAt, List.getD_eq_getElem?_getD]

lemma itemIdAt_ne (items : List Item) (hnd : (items.map Item.id).Nodup)
    {i j : Nat} (hi : i < items.length) (hj : j < items.length) (hne : i ≠ j) :
    itemIdAt items i ≠ itemIdAt items j := by
  intro heq
  have hi' : i < (items.map Item.id).length := by simpa using hi
  have hj' : j < (items.map Item.id).length := by simpa using hj
  have h1 : (items.map Item.id)[i] = (items.map Item.id)[j] := by
    simp only [List.getElem_map]
    have e1 : itemIdAt items i = items[i].id := by
      show (items.getD i default).id = items[i].id
      rw [List.getD_eq_getElem _ _ hi]
    have e2 : itemIdAt items j = items[j].id := by
      show (items.getD j default).id = items[j].id
      rw [List.getD_eq_getElem _ _ hj]
    rw [← e1, ← e2]
    exact heq
  exact hne (hnd.getElem_inj_iff.mp h1)

lemma take_succ_map_id (items : List Item) (p : Nat) (hp : p < items.length) :
    (items.take (p + 1)).map Item.id =
      (items.take p).map Item.id ++ [itemIdAt items p] := by
  have hid : itemIdAt items p = items[p].id := by
    show (items.getD p default).id = items[p].id
    rw [List.getD_eq_getElem _ _ hp]
  rw [hid, List.take_succ, List.getElem?_eq_getElem hp, List.map_append]
  rfl

lemma firstBatchJoin_some (τ : ℝ) (items : List Item) (embs : List Vec)
    (assigned : List (String × ClusterId)) (emb : Vec) :
    ∀ (js : List Nat) (j : Nat) (pid : String) (c : ClusterId) (s : ℝ),
      firstBatchJoin τ items embs assigned emb js = some (j, pid, c, s) →
      assigned.lookup (itemIdAt items j) = some c ∧
      pid = itemIdAt items j ∧ j ∈ js ∧
      s = cosine_similarity emb (embs.getD j []) ∧ τ ≤ s := by
  intro js
  induction js with
  | nil =>
    intro j pid c s h
    simp [firstBatchJoin] at h
  | cons a rest ih =>
    intro j pid c s h
    simp only [firstBatchJoin] at h
    cases hl : assigned.lookup (itemIdAt items a) with
    | none =>
      rw [hl] at h
      obtain ⟨h1, h2, h3, h4, h5⟩ := ih j pid c s h
      exact ⟨h1, h2, List.mem_cons_of_mem a h3, h4, h5⟩
    | some c' =>
      rw [hl] at h
      have h2 : (if τ ≤ cosine_similarity emb (embs.getD a []) then
          some (a, itemIdAt items a, c',
            cosine_similarity emb (embs.getD a []))
          else firstBatchJoin τ items embs assigned emb rest) =
          some (j, pid, c, s) := h
      by_cases hτ : τ ≤ cosine_similarity emb (embs.getD a [])
      · rw [if_pos hτ] at h2
        have h' := Option.some.inj h2
        rw [Prod.ext_iff, Prod.ext_iff, Prod.ext_iff] at h'
        obtain ⟨rfl, rfl, rfl, rfl⟩ := h'
        exact ⟨hl, rfl, List.mem_cons_self a rest, rfl, hτ⟩
      · rw [if_neg hτ] at h2
        obtain ⟨h1, h2', h3, h4, h5⟩ := ih j pid c s h2
        exact ⟨h1, h2', List.mem_cons_of_mem a h3, h4, h5⟩

/-- The `(item_id, decision)` audit entry the engine records for batch index
`j`; audit entries are appended once and never modified. -/
noncomputable def auditEntry (τ : ℝ) (items : List Item) (embs : List Vec)
    (qm : String → List SimilarFeedback) (j : Nat) : String × ClusteringDecision :=
  (phase2State τ items embs qm (j + 1)).audit.getD j default

/-- The structural invariants of Phase 2, proved together by induction over
the batch prefix: the audit trail lists exactly the processed entries in
batch order; every processed item is assigned in `item_to_cluster` to its
decision's cluster; assignments only mention recorded cluster ids; minted
fresh ids stay below the supply counter; member-list keys are distinct; the
member lists jointly hold each processed id exactly once; and each processed
id sits in the member list of its decision's cluster. -/
lemma phase2_invariants (τ : ℝ) (items : List Item) (embs : List Vec)
    (qm : String → List SimilarFeedback)
    (hnd : (items.map Item.id).Nodup) :
    ∀ p, p ≤ items.length →
      ((phase2State τ items embs qm p).audit =
        (List.range p).map (auditEntry τ items embs qm)) ∧
      (∀ j, j < p → (auditEntry τ items embs qm j).1 = itemIdAt items j) ∧
      (∀ j, j < p →
        (phase2State τ items embs qm p).item_to_cluster.lookup
          (itemIdAt items j) = some (auditEntry τ items embs qm j).2.cluster_id) ∧
      (∀ id c,
        (phase2State τ items embs qm p).item_to_cluster.lookup id = some c →
        ∃ j, j < p ∧ c = (auditEntry τ items embs qm j).2.cluster_id) ∧
      (∀ j, j < p → ∀ k,
        (auditEntry τ items embs qm j).2.cluster_id = ClusterId.fresh k →
        k < (phase2State τ items embs qm p).freshCount) ∧
      (((phase2State τ items embs qm p).members.map Prod.fst).Nodup) ∧
      ((((phase2State τ items embs qm p).members.map Prod.snd).flatten).Perm
        ((items.take p).map Item.id)) ∧
      (∀ j, j < p → ∃ l,
        (phase2State τ items embs qm p).members.lookup
          (auditEntry τ items embs qm j).2.cluster_id = some l ∧
        itemIdAt items j ∈ l) := by
  intro p
  induction p with
  | zero =>
    intro _
    refine ⟨by simp [phase2State, initState], ?_, ?_, ?_, ?_, ?_, ?_, ?_⟩
    · intro j hj; omega
    · intro j hj; omega
    · intro id c h
      simp [phase2State, initState, List.lookup] at h
    · intro j hj; omega
    · simp [phase2State, initState]
    · simp [phase2State, initState]
    · intro j hj; omega
  | succ p ih =>
    intro hp
    have hplt : p < items.length := by omega
    obtain ⟨A, B, C, H, D, E, F, G⟩ := ih (by omega)
    obtain ⟨dec, hdecid, hstep, hcases⟩ :=
      phase2Step_cases τ items embs qm (phase2State τ items embs qm p) p
    have hsucc := phase2State_succ τ items embs qm p
    have hlenaudit : (phase2State τ items embs qm p).audit.length = p := by
      rw [A]; simp
    have hAE : auditEntry τ items embs qm p = (itemIdAt items p, dec) := by
      unfold auditEntry
      rw [hsucc, hstep]
      show ((phase2State τ items embs qm p).audit ++
        [(itemIdAt items p, dec)]).getD p default = _
      have hg := getD_snoc_length (phase2State τ items embs qm p).audit
        (itemIdAt items p, dec) default
      rw [hlenaudit] at hg
      exact hg
    have hfc : (phase2State τ items embs qm (p + 1)).freshCount =
        (phase2State τ items embs qm p).freshCount +
          (if dec.decision_type = DecisionType.created_new then 1 else 0) := by
      rw [hsucc, hstep]
    refine ⟨?_, ?_, ?_, ?_, ?_, ?_, ?_, ?_⟩
    · -- audit entries in order
      rw [hsucc, hstep]
      show (phase2State τ items embs qm p).audit ++ [(itemIdAt items p, dec)] = _
      rw [A]
      simp [List.range_succ, hAE]
    · -- audit keys
      intro j hj
      rcases Nat.lt_or_ge j p with hlt | hge
      · exact B j hlt
      · have hj' : j = p := by omega
        subst hj'
        rw [hAE]
    · -- every processed item is assigned to its decision's cluster
      intro j hj
      rw [hsucc, hstep]
      show List.lookup (itemIdAt items j)
        ((itemIdAt items p, dec.cluster_id) ::
          (phase2State τ items embs qm p).item_to_cluster) = _
      rcases Nat.lt_or_ge j p with hlt | hge
      · have hne : itemIdAt items j ≠ itemIdAt items p :=
          itemIdAt_ne items hnd (by omega) hplt (by omega)
        have hb : ((itemIdAt items j) == (itemIdAt items p)) = false :=
          beq_eq_false_iff_ne.mpr hne
        simpa [List.lookup, hb] using C j hlt
      · have hj' : j = p := by omega
        subst hj'
        simp [List.lookup, hAE]
    · -- assignments only mention recorded cluster ids
      intro id c h
      rw [hsucc, hstep] at h
      have h' : List.lookup id
          ((itemIdAt items p, dec.cluster_id) ::
            (phase2State τ items embs qm p).item_to_cluster) = some c := h
      by_cases heq : id = itemIdAt items p
      · subst heq
        have : some dec.cluster_id = some c := by
          simpa [List.lookup] using h'
        refine ⟨p, by omega, ?_⟩
        rw [hAE]
        exact (Option.some.inj this).symm
      · have hb : (id == itemIdAt items p) = false :=
          beq_eq_false_iff_ne.mpr heq
        rw [show List.lookup id
            ((itemIdAt items p, dec.cluster_id) ::
              (phase2State τ items embs qm p).item_to_cluster) =
            List.lookup id (phase2State τ items embs qm p).item_to_cluster
          from by simp [List.lookup, hb]] at h'
        obtain ⟨j, hjp, hc⟩ := H id c h'
        exact ⟨j, by omega, hc⟩
    · -- fresh ids stay below the counter
      intro j hj k hk
      rw [hfc]
      rcases Nat.lt_or_ge j p with hlt | hge
      · have := D j hlt k hk
        split <;> omega
      · have hj' : j = p := by omega
        subst hj'
        rw [hAE] at hk
        rcases hcases with ⟨target, rest, hce, hdec⟩ |
          ⟨hce, j', pid, c, s, hb, hdec⟩ | ⟨hce, hb, hdec⟩
        · subst hdec
          simp at hk
        · subst hdec
          simp only at hk
          obtain ⟨hlk, _, _, _, _⟩ :=
            firstBatchJoin_some τ items embs _ _ _ j' pid c s hb
          obtain ⟨j₀, hj₀, hc⟩ := H _ _ hlk
          have := D j₀ hj₀ k (by rw [← hc]; exact hk)
          split <;> omega
        · subst hdec
          simp only [ClusterId.fresh.injEq] at hk
          subst hk
          simp
    · -- member-list keys stay distinct
      rw [hsucc, hstep]
      exact appendMember_keys_nodup _ _ _ E
    · -- member lists jointly hold each processed id once
      rw [hsucc, hstep]
      show ((appendMember (phase2State τ items embs qm p).members dec.cluster_id
        (itemIdAt items p)).map Prod.snd).flatten.Perm _
      refine (appendMember_flatten_perm _ _ _).trans ?_
      rw [take_succ_map_id items p hplt]
      exact F.append_right _
    · -- each processed id is in its decision's member list
      intro j hj
      rw [hsucc, hstep]
      show ∃ l, (appendMember (phase2State τ items embs qm p).members
        dec.cluster_id (itemIdAt items p)).lookup
          (auditEntry τ items embs qm j).2.cluster_id = some l ∧
        itemIdAt items j ∈ l
      rcases Nat.lt_or_ge j p with hlt | hge
      · obtain ⟨l, hl, hmem⟩ := G j hlt
        by_cases hc : (auditEntry τ items embs qm j).2.cluster_id = dec.cluster_id
        · rw [hc, appendMember_lookup_self]
          refine ⟨_, rfl, ?_⟩
          rw [← hc, hl]
          exact List.mem_append_left _ hmem
        · rw [appendMember_lookup_ne _ _ _ _ hc]
          exact ⟨l, hl, hmem⟩
      · have hj' : j = p := by omega
        subst hj'
        rw [hAE, appendMember_lookup_self]
        exact ⟨_, rfl, List.mem_append_right _ (List.mem_singleton_self _)⟩

lemma firstBatchJoin_cons_none (τ : ℝ) (items : List Item) (embs : List Vec)
    (assigned : List (String × ClusterId)) (emb : Vec) (a : Nat)
    (rest : List Nat) (hl : assigned.lookup (itemIdAt items a) = none) :
    firstBatchJoin τ items embs assigned emb (a :: rest) =
      firstBatchJoin τ items embs assigned emb rest := by
  simp only [firstBatchJoin]
  rw [hl]

lemma firstBatchJoin_cons_some (τ : ℝ) (items : List Item) (embs : List Vec)
    (assigned : List (String × ClusterId)) (emb : Vec) (a : Nat)
    (rest : List Nat) (c : ClusterId)
    (hl : assigned.lookup (itemIdAt items a) = some c) :
    firstBatchJoin τ items embs assigned emb (a :: rest) =
      if τ ≤ cosine_similarity emb (embs.getD a []) then
        some (a, itemIdAt items a, c, cosine_similarity emb (embs.getD a []))
      else firstBatchJoin τ items embs assigned emb rest := by
  simp only [firstBatchJoin]
  rw [hl]

lemma firstBatchJoin_none_forall (τ : ℝ) (items : List Item) (embs : List Vec)
    (assigned : List (String × ClusterId)) (emb : Vec) :
    ∀ js : List Nat, firstBatchJoin τ items embs assigned emb js = none →
      ∀ j ∈ js, (assigned.lookup (itemIdAt items j)).isSome →
        ¬ τ ≤ cosine_similarity emb (embs.getD j []) := by
  intro js
  induction js with
  | nil => intro _ j hj; simp at hj
  | cons a rest ih =>
    intro h j hj hsome
    cases hl : assigned.lookup (itemIdAt items a) with
    | none =>
      rw [firstBatchJoin_cons_none τ items embs assigned emb a rest hl] at h
      rcases List.mem_cons.mp hj with rfl | hmem
      · rw [hl] at hsome
        simp at hsome
      · exact ih h j hmem hsome
    | some c =>
      rw [firstBatchJoin_cons_some τ items embs assigned emb a rest c hl] at h
      by_cases hτ : τ ≤ cosine_similarity emb (embs.getD a [])
      · rw [if_pos hτ] at h
        simp at h
      · rw [if_neg hτ] at h
        rcases List.mem_cons.mp hj with rfl | hmem
        · exact hτ
        · exact ih h j hmem hsome

lemma firstBatchJoin_some_decomp (τ : ℝ) (items : List Item) (embs : List Vec)
    (assigned : List (String × ClusterId)) (emb : Vec) :
    ∀ (js : List Nat) (j : Nat) (pid : String) (c : ClusterId) (s : ℝ),
      firstBatchJoin τ items embs assigned emb js = some (j, pid, c, s) →
      ∃ pre suf, js = pre ++ j :: suf ∧
        ∀ a ∈ pre, assigned.lookup (itemIdAt items a) = none ∨
          ¬ τ ≤ cosine_similarity emb (embs.getD a []) := by
  intro js
  induction js with
  | nil => intro j pid c s h; simp [firstBatchJoin] at h
  | cons a rest ih =>
    intro j pid c s h
    cases hl : assigned.lookup (itemIdAt items a) with
    | none =>
      rw [firstBatchJoin_cons_none τ items embs assigned emb a rest hl] at h
      obtain ⟨pre, suf, heq, hpre⟩ := ih j pid c s h
      refine ⟨a :: pre, suf, by rw [heq]; rfl, ?_⟩
      intro b hb
      rcases List.mem_cons.mp hb with rfl | hmem
      · exact Or.inl hl
      · exact hpre b hmem
    | some c' =>
      rw [firstBatchJoin_cons_some τ items embs assigned emb a rest c' hl] at h
      by_cases hτ : τ ≤ cosine_similarity emb (embs.getD a [])
      · rw [if_pos hτ] at h
        have h' := Option.some.inj h
        rw [Prod.ext_iff] at h'
        obtain ⟨rfl, -⟩ := h'
        exact ⟨[], rest, rfl, by intro b hb; simp at hb⟩
      · rw [if_neg hτ] at h
        obtain ⟨pre, suf, heq, hpre⟩ := ih j pid c s h
        refine ⟨a :: pre, suf, by rw [heq]; rfl, ?_⟩
        intro b hb
        rcases List.mem_cons.mp hb with rfl | hmem
        · exact Or.inr hτ
        · exact hpre b hmem

lemma range_decomp {n j : Nat} {pre suf : List Nat}
    (h : List.range n = pre ++ j :: suf) : pre = List.range j ∧ j < n := by
  have hlen : pre.length + (suf.length + 1) = n := by
    have hl := congrArg List.length h
    simp [List.length_append] at hl
    omega
  have hplt : pre.length < n := by omega
  have h1 : (List.range n)[pre.length]? = some pre.length :=
    List.getElem?_range hplt
  rw [h, List.getElem?_append_right (le_refl pre.length)] at h1
  simp at h1
  have hpre : pre = List.range j := by
    have h2 : (List.range n).take pre.length = pre := by
      rw [h, List.take_left]
    rw [List.take_range] at h2
    rw [← h2, h1]
    congr 1
    omega
  exact ⟨hpre, by omega⟩

lemma range_map_itemIdAt (items : List Item) :
    (List.range items.length).map (itemIdAt items) = items.map Item.id := by
  apply List.ext_getElem (by simp)
  intro i h1 h2
  have hi : i < items.length := by simpa using h2
  simp only [List.getElem_map, List.getElem_range]
  show (items.getD i default).id = items[i].id
  rw [List.getD_eq_getElem _ _ hi]

/-- The conclusion of claim C8 as a predicate: the audit trail has exactly one
decision per item, keyed by the item ids in batch order; cluster member lists
have pairwise-distinct cluster ids; their concatenation is a permutation of
the batch's item ids (so every item is in some cluster) with no duplicates
(so no item is in two clusters); and each item id sits in the member list of
precisely the cluster named in its decision. -/
def Phase2PartitionSpec (τ : ℝ) (items : List Item) (embs : List Vec)
    (qm : String → List SimilarFeedback) : Prop :=
  ((cluster_in_memory_with_audit τ items embs qm).2.map Prod.fst =
    items.map Item.id) ∧
  (((cluster_in_memory_with_audit τ items embs qm).1.map Prod.fst).Nodup) ∧
  ((((cluster_in_memory_with_audit τ items embs qm).1.map Prod.snd).flatten).Perm
    (items.map Item.id)) ∧
  ((((cluster_in_memory_with_audit τ items embs qm).1.map Prod.snd).flatten).Nodup) ∧
  (∀ i, i < items.length →
    ((cluster_in_memory_with_audit τ items embs qm).2.getD i default).1 =
      itemIdAt items i ∧
    ∃ l, (cluster_in_memory_with_audit τ items embs qm).1.lookup
        (((cluster_in_memory_with_audit τ items embs qm).2.getD i
          default).2.cluster_id) = some l ∧
      itemIdAt items i ∈ l)

/-- Claim C8: for a batch of pairwise-distinct item ids, the Phase-2 result
gives every item exactly one audit decision and places every item id in
exactly one cluster's member list — the cluster named in its decision. -/
theorem C8_cluster_batch_partition (τ : ℝ) (items : List Item)
    (embs : List Vec) (qm : String → List SimilarFeedback)
    (hnd : (items.map Item.id).Nodup) :
    Phase2PartitionSpec τ items embs qm := by
  obtain ⟨A, B, C, H, D, E, F, G⟩ :=
    phase2_invariants τ items embs qm hnd items.length (le_refl _)
  have hgetD : ∀ i, i < items.length →
      (phase2State τ items embs qm items.length).audit.getD i default =
        auditEntry τ items embs qm i := by
    intro i hi
    rw [A, List.getD_eq_getElem _ _ (by simpa using hi)]
    simp
  refine ⟨?_, E, ?_, ?_, ?_⟩
  · show (phase2State τ items embs qm items.length).audit.map Prod.fst = _
    rw [A, List.map_map]
    rw [show (Prod.fst ∘ auditEntry τ items embs qm) =
      fun j => (auditEntry τ items embs qm j).1 from rfl]
    rw [← range_map_itemIdAt items]
    apply List.map_congr_left
    intro j hj
    exact B j (List.mem_range.mp hj)
  · show (((phase2State τ items embs qm items.length).members.map
      Prod.snd).flatten).Perm _
    have F' := F
    rw [List.take_length] at F'
    exact F'
  · show (((phase2State τ items embs qm items.length).members.map
      Prod.snd).flatten).Nodup
    refine (F.nodup_iff).mpr ?_
    rw [List.take_length]
    exact hnd
  · intro i hi
    constructor
    · show ((phase2State τ items embs qm items.length).audit.getD i
        default).1 = _
      rw [hgetD i hi]
      exact B i hi
    · show ∃ l, (phase2State τ items embs qm items.length).members.lookup
        (((phase2State τ items embs qm items.length).audit.getD i
          default).2.cluster_id) = some l ∧ itemIdAt items i ∈ l
      rw [hgetD i hi]
      exact G i hi

/-- Witness for C8 on a two-item batch with distinct ids and no Phase-1
matches. -/
theorem C8_cluster_batch_partition_witness :
    (([⟨"a", "", "", none⟩, ⟨"b", "", "", none⟩] : List Item).map
      Item.id).Nodup ∧
    Phase2PartitionSpec ((72 : ℝ) / 100)
      [⟨"a", "", "", none⟩, ⟨"b", "", "", none⟩] [[(1 : ℚ)], [(1 : ℚ)]]
      (fun _ => []) :=
  ⟨by decide, C8_cluster_batch_partition ((72 : ℝ) / 100)
    [⟨"a", "", "", none⟩, ⟨"b", "", "", none⟩] [[(1 : ℚ)], [(1 : ℚ)]]
    (fun _ => []) (by decide)⟩

/-- The conclusion of claim C1 as a predicate on the engine inputs and a
batch index `i`: items are processed strictly in batch order (the audit keys
are the item ids in order), and item `i` is resolved by the first satisfied
rule — (1) if its Phase-1 match list holds a match carrying a cluster id, it
joins the first such match in index order (`joined_existing`, with that
match's score and id); (2) else it joins the cluster of the first earlier
batch item `j₀ < i` whose cosine similarity reaches `τ` (`joined_batch`,
with `matched_item_id = j₀`'s id and the computed similarity); (3) else its
decision is `created_new` with a freshly minted cluster id different from
every cluster id recorded before it. -/
def Phase2ItemSpec (τ : ℝ) (items : List Item) (embs : List Vec)
    (qm : String → List SimilarFeedback) (i : Nat) : Prop :=
  ((phase2State τ items embs qm items.length).audit.map Prod.fst =
    items.map Item.id) ∧
  (auditEntry τ items embs qm i).1 = itemIdAt items i ∧
  (∀ target rest, clusteredExisting (qm (itemIdAt items i)) = target :: rest →
    (auditEntry τ items embs qm i).2 =
      { item_id := itemIdAt items i,
        cluster_id := ClusterId.ext ((matchClusterId target).getD ""),
        decision_type := .joined_existing,
        similarity_score := some target.score,
        matched_item_id := some target.id }) ∧
  (clusteredExisting (qm (itemIdAt items i)) = [] →
    ∀ j₀, j₀ < i →
    τ ≤ cosine_similarity (embs.getD i []) (embs.getD j₀ []) →
    (∀ j, j < j₀ → ¬ τ ≤ cosine_similarity (embs.getD i []) (embs.getD j [])) →
    (auditEntry τ items embs qm i).2 =
      { item_id := itemIdAt items i,
        cluster_id := (auditEntry τ items embs qm j₀).2.cluster_id,
        decision_type := .joined_batch,
        similarity_score :=
          some (cosine_similarity (embs.getD i []) (embs.getD j₀ [])),
        matched_item_id := some (itemIdAt items j₀) }) ∧
  (clusteredExisting (qm (itemIdAt items i)) = [] →
    (∀ j, j < i → ¬ τ ≤ cosine_similarity (embs.getD i []) (embs.getD j [])) →
    (auditEntry τ items embs qm i).2.decision_type = .created_new ∧
    (∃ k, (auditEntry τ items embs qm i).2.cluster_id = ClusterId.fresh k) ∧
    (∀ j, j < i →
      (auditEntry τ items embs qm j).2.cluster_id ≠
        (auditEntry τ items embs qm i).2.cluster_id))

/-- Claim C1: Phase 2 processes items in batch index order and resolves each
item by the first satisfied rule — join-existing (first match carrying a
cluster id, in index order), join-batch (first earlier batch item at or above
the threshold), else create-new with a fresh cluster id. -/
theorem C1_phase2_resolution (τ : ℝ) (items : List Item) (embs : List Vec)
    (qm : String → List SimilarFeedback) (hnd : (items.map Item.id).Nodup)
    (i : Nat) (hi : i < items.length) : Phase2ItemSpec τ items embs qm i := by
  obtain ⟨A, B, C, H, D, E, F, G⟩ :=
    phase2_invariants τ items embs qm hnd items.length (le_refl _)
  obtain ⟨Ai, Bi, Ci, Hi, Di, Ei, Fi, Gi⟩ :=
    phase2_invariants τ items embs qm hnd i (by omega)
  obtain ⟨dec, hdecid, hstep, hcases⟩ :=
    phase2Step_cases τ items embs qm (phase2State τ items embs qm i) i
  have hsucc := phase2State_succ τ items embs qm i
  have hlenaudit : (phase2State τ items embs qm i).audit.length = i := by
    rw [Ai]; simp
  have hAE : auditEntry τ items embs qm i = (itemIdAt items i, dec) := by
    unfold auditEntry
    rw [hsucc, hstep]
    show ((phase2State τ items embs qm i).audit ++
      [(itemIdAt items i, dec)]).getD i default = _
    have hg := getD_snoc_length (phase2State τ items embs qm i).audit
      (itemIdAt items i, dec) default
    rw [hlenaudit] at hg
    exact hg
  refine ⟨?_, B i hi, ?_, ?_, ?_⟩
  · show (phase2State τ items embs qm items.length).audit.map Prod.fst = _
    rw [A, List.map_map]
    rw [show (Prod.fst ∘ auditEntry τ items embs qm) =
      fun j => (auditEntry τ items embs qm j).1 from rfl]
    rw [← range_map_itemIdAt items]
    apply List.map_congr_left
    intro j hj
    exact B j (List.mem_range.mp hj)
  · -- rule 1: join-existing
    intro target rest hm
    rcases hcases with ⟨t', r', hce, hdec⟩ | ⟨hce, -⟩ | ⟨hce, -, -⟩
    · rw [hm] at hce
      rw [List.cons.injEq] at hce
      obtain ⟨h3, -⟩ := hce
      rw [hAE]
      show dec = _
      rw [hdec, ← h3]
    · rw [hm] at hce
      simp at hce
    · rw [hm] at hce
      simp at hce
  · -- rule 2: join-batch with the first earlier similar item
    intro hce0 j₀ hj₀ hτ hleast
    rcases hcases with ⟨t', r', hce, -⟩ |
      ⟨-, j', pid, c, s, hb, hdec⟩ | ⟨-, hb, -⟩
    · rw [hce0] at hce
      simp at hce
    · obtain ⟨hlk, hpid, hmem, hs, hτ'⟩ :=
        firstBatchJoin_some τ items embs _ _ _ j' pid c s hb
      have hsim : τ ≤ cosine_similarity (embs.getD i []) (embs.getD j' []) :=
        hs ▸ hτ'
      have hj'i : j' < i := List.mem_range.mp hmem
      obtain ⟨pre, suf, hdecomp, hpre⟩ :=
        firstBatchJoin_some_decomp τ items embs _ _ _ j' pid c s hb
      obtain ⟨hprerange, -⟩ := range_decomp hdecomp
      have hminimal : ∀ k, k < j' →
          ¬ τ ≤ cosine_similarity (embs.getD i []) (embs.getD k []) := by
        intro k hk
        have hkpre : k ∈ pre := by
          rw [hprerange]; exact List.mem_range.mpr hk
        rcases hpre k hkpre with hnone | hfail
        · exfalso
          have hc := Ci k (by omega)
          rw [hc] at hnone
          simp at hnone
        · exact hfail
      have hj'j₀ : j' = j₀ := by
        rcases Nat.lt_trichotomy j' j₀ with hlt | heq | hgt
        · exact absurd hsim (hleast j' hlt)
        · exact heq
        · exact absurd hτ (hminimal j₀ hgt)
      subst hj'j₀
      have hcc : c = (auditEntry τ items embs qm j').2.cluster_id := by
        have hc := Ci j' (by omega)
        rw [hc] at hlk
        exact (Option.some.inj hlk).symm
      rw [hAE]
      show dec = _
      rw [hdec, hcc, hpid, hs]
    · exfalso
      have hsome : ((phase2State τ items embs qm i).item_to_cluster.lookup
          (itemIdAt items j₀)).isSome := by
        rw [Ci j₀ hj₀]; rfl
      exact firstBatchJoin_none_forall τ items embs _ _ (List.range i) hb
        j₀ (List.mem_range.mpr hj₀) hsome hτ
  · -- rule 3: create-new with a fresh cluster id
    intro hce0 hnone
    rcases hcases with ⟨t', r', hce, -⟩ |
      ⟨-, j', pid, c, s, hb, -⟩ | ⟨-, -, hdec⟩
    · rw [hce0] at hce
      simp at hce
    · exfalso
      obtain ⟨-, -, hmem, hs, hτ'⟩ :=
        firstBatchJoin_some τ items embs _ _ _ j' pid c s hb
      exact hnone j' (List.mem_range.mp hmem) (hs ▸ hτ')
    · refine ⟨?_, ?_, ?_⟩
      · rw [hAE]
        show dec.decision_type = _
        rw [hdec]
      · rw [hAE]
        refine ⟨(phase2State τ items embs qm i).freshCount, ?_⟩
        show dec.cluster_id = _
        rw [hdec]
      · intro j hj
        rw [hAE]
        show (auditEntry τ items embs qm j).2.cluster_id ≠ dec.cluster_id
        rw [hdec]
        cases hcid : (auditEntry τ items embs qm j).2.cluster_id with
        | ext s' => simp
        | fresh k =>
          have hklt := Di j hj k hcid
          simp only [ne_eq, ClusterId.fresh.injEq]
          omega

/-- Witness for C1 on a two-item batch with distinct ids, no Phase-1 matches
and `i = 1`. -/
theorem C1_phase2_resolution_witness :
    (([⟨"a", "", "", none⟩, ⟨"b", "", "", none⟩] : List Item).map
      Item.id).Nodup ∧
    (1 < ([⟨"a", "", "", none⟩, ⟨"b", "", "", none⟩] : List Item).length) ∧
    Phase2ItemSpec ((72 : ℝ) / 100)
      [⟨"a", "", "", none⟩, ⟨"b", "", "", none⟩] [[(1 : ℚ)], [(1 : ℚ)]]
      (fun _ => []) 1 :=
  ⟨by decide, by decide, C1_phase2_resolution ((72 : ℝ) / 100)
    [⟨"a", "", "", none⟩, ⟨"b", "", "", none⟩] [[(1 : ℚ)], [(1 : ℚ)]]
    (fun _ => []) (by decide) 1 (by decide)⟩

end Soulcaster
